import Mathlib

/-!
The ArrayFire / ITK / OpenCV layout bridge.

A shallow embedding of `Modules/Bridge/ArrayFire` (`itkArrayFireImageBridge.h`,
`itkArrayFireImageBridge.hxx`, `itkArrayFireImageBridge.cxx`) and the layout,
round-trip and error properties of its conversions.

Conventions of the embedding.

* Data model LP64: `unsigned int` is 32 bits wide, `dim_t`, `size_t` and
  `itk::SizeValueType` are 64 bits wide.  Every conversion to `unsigned int` and
  every `unsigned int` product of the source is written with an explicit
  `% 2 ^ 32`.  Quantities of 64-bit type are natural numbers.
* An `af::array` is a device object that is observed only through its extents,
  its element type and its elements `a(i, j, k, l)`.  It is embedded as exactly
  that; the column-major order appears where host memory is exchanged
  (`af_create_array`, `host`, `moddims`).
* Host buffers (`std::vector`, the pixel container of an image, the data of a
  `cv::Mat`) are lists.
* Element values are drawn from a type `α`.  What the external libraries do to
  a single value (conversion between element types, byte representation) is
  collected in `Externals`.
* A C++ exception is the `error` case of `Except`.
-/

namespace itk

/-- Element types of ArrayFire, `af_dtype` (`af::dtype`). -/
inductive af_dtype
  | f32 | c32 | f64 | c64 | b8 | s32 | u32 | u8 | s64 | u64 | s16 | u16
  deriving DecidableEq, Repr

/-- Status codes of the ArrayFire C interface; only the distinction between
`AF_SUCCESS` and the other codes is observed by the bridge. -/
inductive af_err
  | AF_SUCCESS | AF_ERR_NO_MEM | AF_ERR_ARG | AF_ERR_SIZE | AF_ERR_TYPE
  deriving DecidableEq, Repr

/-- The exceptions that leave the bridge: `itkGenericExceptionMacro`,
`throw std::runtime_error`, the `af::exception` raised inside ArrayFire calls and the
`cv::Exception` raised inside OpenCV calls. -/
inductive Exception
  | itkGeneric (what : String)
  | runtime_error (what : String)
  | af_exception (code : af_err)
  | cv_exception (what : String)
  deriving DecidableEq, Repr

/-- Behaviour of the external libraries on single values, left open. -/
structure Externals (α : Type) where
  /-- ArrayFire's conversion of a value from one element type to a different one. -/
  conv : af_dtype → af_dtype → α → α
  /-- The value `0` (`af::constant(0, ...)`, value-initialised `std::vector`). -/
  zero : α
  /-- Content of host storage that was allocated and never written, or that lies
  beyond the end of a buffer. -/
  indet : α
  /-- Content found at position `i` of an extent array (`itk::Size`) that was never
  written there, or that has fewer than `i + 1` entries. -/
  indetExtent : Nat → Nat
  /-- Content of a byte of host storage that was allocated and never written. -/
  indetByte : Nat
  /-- The `u8` value held by one byte of host memory. -/
  ofByte : Nat → α
  /-- The bytes by which a value of the given element type is held in host memory. -/
  toBytes : af_dtype → α → List Nat
  /-- ITK's conversion of one pixel between two different component counts. -/
  mixPixel : Nat → Nat → List α → List α

/-- Conversion of one value as done by `af::array::as` and by assignment between
arrays: nothing changes when source and destination type agree. -/
def castTo {α : Type} (X : Externals α) (src dst : af_dtype) (v : α) : α :=
  if src = dst then v else X.conv src dst v

namespace af

/-- Extents of an array, `af::dim4`. -/
structure dim4 where
  d0 : Nat
  d1 : Nat
  d2 : Nat
  d3 : Nat
  deriving DecidableEq, Repr

/-- Extent along axis `i`, `dim4::operator[]`. -/
def dim4.get (d : dim4) (i : Nat) : Nat :=
  match i with
  | 0 => d.d0
  | 1 => d.d1
  | 2 => d.d2
  | _ => d.d3

/-- Number of elements, `dim4::elements()`. -/
def dim4.elements (d : dim4) : Nat := d.d0 * d.d1 * d.d2 * d.d3

/-- Number of axes up to the last one with extent other than 1, `dim4::ndims()`;
it is 0 for extents without elements. -/
def dim4.ndims (d : dim4) : Nat :=
  if d.elements = 0 then 0
  else if d.elements = 1 then 1
  else if d.d3 ≠ 1 then 4
  else if d.d2 ≠ 1 then 3
  else if d.d1 ≠ 1 then 2
  else 1

/-- An `af::array`: extents, element type, and the element at each position. -/
structure array (α : Type) where
  dim : dim4
  type : af_dtype
  get : Nat → Nat → Nat → Nat → α

variable {α : Type}

/-- Extent accessor `array::dims(i)`. -/
def array.dims (a : array α) (i : Nat) : Nat := a.dim.get i

/-- Element count `array::elements()`. -/
def array.elements (a : array α) : Nat := a.dim.elements

/-- Emptiness test `array::isempty()`. -/
def array.isempty (a : array α) : Bool := a.elements == 0

/-- The default-constructed `af::array()`: no elements, type `f32`. -/
def array.empty (X : Externals α) : array α :=
  { dim := ⟨0, 1, 1, 1⟩, type := .f32, get := fun _ _ _ _ => X.indet }

/-- Element at position `p` of the column-major linearisation. -/
def array.flat (a : array α) (p : Nat) : α :=
  a.get (p % a.dim.d0) (p / a.dim.d0 % a.dim.d1) (p / (a.dim.d0 * a.dim.d1) % a.dim.d2)
    (p / (a.dim.d0 * a.dim.d1 * a.dim.d2))

/-- Copy to host memory, `array::host`: all elements in column-major order. -/
def array.host (a : array α) : List α := (List.range a.elements).map a.flat

/-- Transposition `af::transpose` / `array::T()`: the first two axes are exchanged
in every slice. -/
def transpose (a : array α) : array α :=
  { dim := ⟨a.dim.d1, a.dim.d0, a.dim.d2, a.dim.d3⟩, type := a.type,
    get := fun i j k l => a.get j i k l }

/-- Method form of `transpose`. -/
def array.T (a : array α) : array α := transpose a

/-- Axis permutation `af::reorder(a, x, y, z, w)`: axis `n` of the result is axis
`x`, `y`, `z`, `w` of `a` for `n = 0, 1, 2, 3`. -/
def reorder (a : array α) (x y z w : Nat) : array α :=
  { dim := ⟨a.dim.get x, a.dim.get y, a.dim.get z, a.dim.get w⟩, type := a.type,
    get := fun i0 i1 i2 i3 =>
      let src := fun n => if x = n then i0 else if y = n then i1 else if z = n then i2 else i3
      a.get (src 0) (src 1) (src 2) (src 3) }

/-- Element type conversion `array::as`. -/
def array.as (X : Externals α) (a : array α) (t : af_dtype) : array α :=
  { dim := a.dim, type := t, get := fun i j k l => castTo X a.type t (a.get i j k l) }

/-- The dimension check of array creation (`verifyDims`): at least one axis, and no
axis among the first `ndims` without extent. -/
def verifyDims (ndims : Nat) (dims : dim4) : Bool :=
  decide (1 ≤ ndims) && (List.range (min ndims 4)).all (fun i => decide (1 ≤ dims.get i))

/-- The C call `af_create_array(&out, data, ndims, dims, type)`: status code and, on
success, the array whose first `ndims` extents are those of `dims` (the others 1)
and whose elements are read from `data` in column-major order.  Exhaustion of
memory is not represented. -/
def af_create_array (X : Externals α) (data : List α) (ndims : Nat) (dims : dim4)
    (type : af_dtype) : af_err × Option (array α) :=
  if verifyDims ndims dims then
    let e := fun i => if i < ndims then dims.get i else 1
    (.AF_SUCCESS,
      some { dim := ⟨e 0, e 1, e 2, e 3⟩, type := type,
             get := fun i j k l => data.getD (i + e 0 * (j + e 1 * (k + e 2 * l))) X.indet })
  else (.AF_ERR_SIZE, none)

/-- The constructor `af::array(dims, pointer)` from host memory; it raises
`af::exception` where `af_create_array` (called with all four axes) reports failure. -/
def array.ofHost (X : Externals α) (dims : dim4) (pointer : List α) (type : af_dtype) :
    Except Exception (array α) :=
  match af_create_array X pointer 4 dims type with
  | (.AF_SUCCESS, some out) => .ok out
  | (code, _) => .error (.af_exception code)

/-- The generator `af::constant(0, dims, type)`; it passes `dims.ndims()` axes to the
dimension check. -/
def constant (X : Externals α) (dims : dim4) (type : af_dtype) : Except Exception (array α) :=
  if verifyDims dims.ndims dims then
    .ok { dim := dims, type := type, get := fun _ _ _ _ => X.zero }
  else .error (.af_exception .AF_ERR_SIZE)

/-- The indexing expression `a(af::seq(first, last, step), af::span)` for a sequence with
`first ≤ last`: every `step`-th position of the first axis from `first` up to `last`. -/
def array.rows (a : array α) (first last step : Nat) : Except Exception (array α) :=
  if first ≤ last ∧ last < a.dim.d0 ∧ 0 < step then
    .ok { dim := ⟨(last - first) / step + 1, a.dim.d1, a.dim.d2, a.dim.d3⟩, type := a.type,
          get := fun i j k l => a.get (first + step * i) j k l }
  else .error (.af_exception .AF_ERR_ARG)

/-- The assignment `dst(af::span, af::span, c) = rhs`: the extents of `rhs` have to be
those of one slice of `dst`, and the values are converted to the type of `dst`. -/
def array.assignSlice (X : Externals α) (dst : array α) (c : Nat) (rhs : array α) :
    Except Exception (array α) :=
  if c < dst.dim.d2 ∧ rhs.dim = ⟨dst.dim.d0, dst.dim.d1, 1, 1⟩ then
    .ok { dim := dst.dim, type := dst.type,
          get := fun i j k l =>
            if k = c then castTo X rhs.type dst.type (rhs.get i j 0 0) else dst.get i j k l }
  else .error (.af_exception .AF_ERR_SIZE)

/-- Concatenation `af::join(dim, first, second)`: the axis has to be one of the four and
the element types of the two operands have to agree, also when one of them has no
elements; after that an operand without elements is ignored; otherwise all extents
except the one along `dim` have to agree. -/
def join (dim : Nat) (first second : array α) : Except Exception (array α) :=
  if ¬ dim < 4 ∨ first.type ≠ second.type then .error (.af_exception .AF_ERR_ARG)
  else if second.elements = 0 then .ok first
  else if first.elements = 0 then .ok second
  else if (List.range 4).all (fun i => decide (i = dim ∨ first.dims i = second.dims i)) then
    let e := fun i => if i = dim then first.dims i + second.dims i else first.dims i
    let shift := fun i n => if i = dim then n - first.dims dim else n
    .ok { dim := ⟨e 0, e 1, e 2, e 3⟩, type := first.type,
          get := fun i j k l =>
            let own := if dim = 0 then i else if dim = 1 then j else if dim = 2 then k else l
            if own < first.dims dim then first.get i j k l
            else second.get (shift 0 i) (shift 1 j) (shift 2 k) (shift 3 l) }
  else .error (.af_exception .AF_ERR_SIZE)

/-- Reshaping `af::moddims(a, dims)`: the element count has to stay, and so does the
column-major order of the elements. -/
def moddims (a : array α) (dims : dim4) : Except Exception (array α) :=
  if a.elements = dims.elements then
    .ok { dim := dims, type := a.type,
          get := fun i j k l => a.flat (i + dims.d0 * (j + dims.d1 * (k + dims.d2 * l))) }
  else .error (.af_exception .AF_ERR_SIZE)

/-- Size in bytes of one element of the given type. -/
def sizeOfDtype : af_dtype → Nat
  | .f32 => 4 | .c32 => 8 | .f64 => 8 | .c64 => 16 | .b8 => 1 | .s32 => 4
  | .u32 => 4 | .u8 => 1 | .s64 => 8 | .u64 => 8 | .s16 => 2 | .u16 => 2

end af

/-- An image type `itk::Image<PixelType, ImageDimension>` as far as the bridge
observes it. -/
structure ImageType where
  /-- The number of axes `ImageType::ImageDimension`. -/
  ImageDimension : Nat
  /-- The component count `NumericTraits<PixelType>::MeasurementVectorType::Dimension`:
  1 for a scalar pixel, 3 for `RGBPixel`, 4 for `RGBAPixel`. -/
  Components : Nat
  /-- The ArrayFire tag `af::dtype_traits<ValueType>::af_type` of the component type
  `NumericTraits<PixelType>::ValueType`. -/
  ValueType : af_dtype
  deriving DecidableEq, Repr

/-- An `itk::Image`: its largest possible region (start index and size), its
spacing, and its pixel container, in which the pixels follow each other with the
first axis running fastest and the components of one pixel are adjacent. -/
structure Image (α : Type) where
  index : List Int
  size : List Nat
  spacing : List ℚ
  buffer : List α

variable {α : Type}

/-- Read `size[i]` of an image region. -/
def Image.sizeAt (X : Externals α) (img : Image α) (i : Nat) : Nat :=
  img.size.getD i (X.indetExtent i)

/-- Component `k` of the pixel at `(x, y)` of an image of width `w` whose pixels have
`c` components. -/
def Image.component (img : Image α) (c w x y k : Nat) : Option α :=
  img.buffer[k + c * (x + w * y)]?

/-- Sequential execution of the assignments `output[i] = v` of a loop nest, given as
the list of pairs `(i, v)` in execution order.  An assignment outside the vector
leaves it as it is. -/
def applyWrites (ws : List (Nat × α)) (output : List α) : List α :=
  ws.foldl (fun out w => out.set w.1 w.2) output

/-- The assignments made by the loop nest of `ITKRGBArrayToVectorArrayHelper`, in
execution order (`j` outermost, then `i`, then `c`).  `inPtr[p][c]` is position
`channels * p + c` of the pixel container; `c*width*height` and `i + width * j` are
`unsigned` expressions. -/
def helperWrites (X : Externals α) (channels : Nat) (inPtr : List α) (width height : Nat) :
    List (Nat × α) :=
  let sliceOffsets := (List.range channels).map (fun c => c * width * height % 2 ^ 32)
  (List.range height).flatMap (fun j =>
    (List.range width).flatMap (fun i =>
      let sliceIndex := (i + width * j) % 2 ^ 32
      (List.range channels).map (fun c =>
        (sliceOffsets.getD c 0 + sliceIndex, inPtr.getD (channels * sliceIndex + c) X.indet))))

/-- The de-interleaving helper `ITKRGBArrayToVectorArrayHelper<T, channels>`: a vector of
`width*height*channels` (an `unsigned` product) zeros, into which the loop nest writes
channel plane after channel plane. -/
def ITKRGBArrayToVectorArrayHelper (X : Externals α) (channels : Nat) (inPtr : List α)
    (width height : Nat) : List α :=
  applyWrites (helperWrites X channels inPtr width height)
    (List.replicate (width * height * channels % 2 ^ 32) X.zero)

/-- The overload set `ITKRGBArrayToVectorArray`: `RGBPixel` (3 components) and `RGBAPixel`
(4 components) go through the helper, every other pixel type takes the placeholder that
returns an empty vector. -/
def ITKRGBArrayToVectorArray (X : Externals α) (T : ImageType) (inPtr : List α)
    (width height : Nat) : List α :=
  if T.Components = 3 then ITKRGBArrayToVectorArrayHelper X 3 inPtr width height
  else if T.Components = 4 then ITKRGBArrayToVectorArrayHelper X 4 inPtr width height
  else []

/-- Modelled from the spec: `itk::ConvertPixelBuffer<...>::Convert` is defined in
`itkConvertPixelBuffer.h`, which is not among the sources.  Following the
specification (`cast elements to the target's component type; copy the flat buffer
into the target image's fixed-size region`), `size` pixels are taken from the front
of the input buffer; the buffer already has the component type of the target, so
with equal component counts the values are copied unchanged, and with different
counts each pixel goes through ITK's component conversion `mixPixel`. -/
def ConvertPixelBuffer.Convert (X : Externals α) (inputData : List α)
    (inputNumberOfComponents outputNumberOfComponents size : Nat) : List α :=
  if inputNumberOfComponents = outputNumberOfComponents then
    inputData.take (outputNumberOfComponents * size)
  else
    (List.range size).flatMap (fun p =>
      X.mixPixel inputNumberOfComponents outputNumberOfComponents
        ((inputData.drop (inputNumberOfComponents * p)).take inputNumberOfComponents))

/-- The private worker `ITKConvertArray<ImageType>(in, transposeIn, out)`; the image
written through `out` is the result.  The local `size` is not initialised, so axes
from the third on keep indeterminate extents; `Allocate()` provides storage for
the whole region, of which `Convert` writes the first `size[0]*size[1]` pixels.  For
an image type with fewer than two axes the assignment to `size[1]` goes past the
end of `size` and is not represented.  For an image type with exactly two axes every
extent is written and the definition follows the source statement by statement; for
any other number of axes the source works with extents that were never set, and the
result given here only records which entries those are. -/
def ITKConvertArray (X : Externals α) (T : ImageType) (inp : af.array α) (transposeIn : Bool) :
    Except Exception (Image α) :=
  let inChannels := inp.dims 2 % 2 ^ 32
  if inChannels ≠ 1 ∧ inChannels ≠ 3 ∧ inChannels ≠ 4 then
    .error (.itkGeneric "Currently, ITKArrayFireBridge supports 1/3/4 channels only.")
  else
    let current := if transposeIn then af.transpose inp else inp
    let current := if inChannels > 1 then af.reorder current 2 1 0 3 else af.reorder current 1 0 2 3
    let current := current.as X T.ValueType
    let noTranspose := !transposeIn
    let start : List Int := List.replicate T.ImageDimension 0
    let spacing : List ℚ := List.replicate T.ImageDimension 1
    let size0 := if noTranspose then inp.dims 1 else inp.dims 0
    let size1 := if noTranspose then inp.dims 0 else inp.dims 1
    let size := (((List.range T.ImageDimension).map X.indetExtent).set 0 size0).set 1 size1
    let allocated := List.replicate (size.prod * T.Components) X.indet
    let buffer := current.host
    let converted := ConvertPixelBuffer.Convert X buffer inChannels T.Components (size0 * size1)
    .ok { index := start, size := size, spacing := spacing,
          buffer := converted ++ allocated.drop converted.length }

/-- The conversion `ArrayFireImageBridge::AfArrayToITKImage<ImageType>(in, transposeIn)`. -/
def AfArrayToITKImage (X : Externals α) (T : ImageType) (inp : af.array α) (transposeIn : Bool) :
    Except Exception (Image α) :=
  if inp.isempty then .error (.itkGeneric "Input is ITK_NULLPTR")
  else
    let t := inp.type
    if t = .f64 ∨ t = .f32 ∨ t = .s16 ∨ t = .u16 ∨ t = .u8 then
      ITKConvertArray X T inp transposeIn
    else .error (.itkGeneric "Unsupported type for pixel component")

/-- The test of `ITKImageToAfArray` for an axis from the third on whose extent is not 1
(the flag the source calls `IsA2DImage`). -/
def IsA2DImage (X : Externals α) (T : ImageType) (img : Image α) : Bool :=
  decide (T.ImageDimension > 2) &&
    (List.range' 2 (T.ImageDimension - 2)).any (fun dim => decide (img.sizeAt X dim ≠ 1))

/-- The array creation inside `ITKImageToAfArray`: the extents `(w, h, channels)` with
`w`, `h` the first two region extents converted to `unsigned int`, the data (the pixel
container for one channel, the de-interleaved copy for several), and the call of
`af_create_array` on them. -/
def createFromImage (X : Externals α) (T : ImageType) (img : Image α) :
    af_err × Option (af.array α) :=
  let channels := T.Components
  let w := img.sizeAt X 0 % 2 ^ 32
  let h := img.sizeAt X 1 % 2 ^ 32
  let inputPtr := img.buffer
  let dims : af.dim4 := ⟨w, h, channels, 1⟩
  let vtype := T.ValueType
  let data := if channels = 1 then inputPtr else ITKRGBArrayToVectorArray X T inputPtr w h
  af.af_create_array X data dims.ndims dims vtype

/-- The conversion `ArrayFireImageBridge::ITKImageToAfArray<ImageType>(in)`; `none` is
the null pointer. -/
def ITKImageToAfArray (X : Externals α) (T : ImageType) (inp : Option (Image α)) :
    Except Exception (af.array α) :=
  match inp with
  | none => .error (.itkGeneric "Input is ITK_NULLPTR")
  | some img =>
    if IsA2DImage X T img then
      .error (.itkGeneric "ArrayFire only supports 2D and 1D images")
    else
      let channels := T.Components
      if channels ≠ 1 ∧ channels ≠ 3 ∧ channels ≠ 4 then
        .error (.itkGeneric "ITKArrayFireBridge only supports grayscale and 3-channel data")
      else
        match createFromImage X T img with
        | (.AF_SUCCESS, some out) => .ok out.T
        | _ => .error (.itkGeneric "Creation of af::array from data failed")

/-! ### The OpenCV side (`itkArrayFireImageBridge.cxx`) -/

/-- Depth code `CV_8U` of OpenCV. -/
def CV_8U : Int := 0

/-- Depth code `CV_8S` of OpenCV. -/
def CV_8S : Int := 1

/-- Depth code `CV_16U` of OpenCV. -/
def CV_16U : Int := 2

/-- Depth code `CV_16S` of OpenCV. -/
def CV_16S : Int := 3

/-- Depth code `CV_32S` of OpenCV. -/
def CV_32S : Int := 4

/-- Depth code `CV_32F` of OpenCV. -/
def CV_32F : Int := 5

/-- Depth code `CV_64F` of OpenCV. -/
def CV_64F : Int := 6

/-- The macro `CV_MAKETYPE(depth, cn)`, that is `(depth & 7) + ((cn - 1) << 3)`,
evaluated with the `size_t` channel count of `GetCVTypeFromAfDtype` and converted to the
`int` that function returns. -/
def CV_MAKETYPE (depth : Int) (cn : Nat) : Int :=
  Int.bmod (depth % 8 + ((cn : Int) - 1) * 8) (2 ^ 32)

/-- Size in bytes of one channel of an element of the given depth (`CV_ELEM_SIZE1`). -/
def elemSize1 (depth : Nat) : Nat :=
  match depth with
  | 0 => 1 | 1 => 1 | 2 => 2 | 3 => 2 | 4 => 4 | 5 => 4 | 6 => 8 | _ => 8

/-- A `cv::Mat` with two axes: `type` is the value of `Mat::type()` (depth and channel
count), `step` the distance in bytes between the starts of two rows, `data` the bytes
at the data pointer (no bytes for the null pointer). -/
structure Mat where
  rows : Nat
  cols : Nat
  type : Nat
  step : Nat
  data : List Nat
  deriving DecidableEq, Repr

/-- Depth of the elements, `Mat::depth()`. -/
def Mat.depth (m : Mat) : Nat := m.type % 8

/-- Channel count `Mat::channels()`. -/
def Mat.channels (m : Mat) : Nat := m.type / 8 % 512 + 1

/-- Size in bytes of one element with all its channels, `Mat::elemSize()`. -/
def Mat.elemSize (m : Mat) : Nat := m.channels * elemSize1 m.depth

/-- Emptiness test `Mat::empty()`: null data pointer or no element. -/
def Mat.empty (m : Mat) : Bool := m.data.isEmpty || m.rows * m.cols == 0

/-- The default-constructed `cv::Mat()`. -/
def Mat.default : Mat := { rows := 0, cols := 0, type := 0, step := 0, data := [] }

/-- The mapping `GetAfDtypeFromCVType` from a depth code to an element type. -/
def GetAfDtypeFromCVType (type : Int) : af_dtype :=
  if type = CV_8U then .u8
  else if type = CV_8S then .b8
  else if type = CV_16U then .u16
  else if type = CV_16S then .s16
  else if type = CV_32S then .s32
  else if type = CV_32F then .f32
  else if type = CV_64F then .f64
  else .f32

/-- The worker `Convert(input, transpose)` of `CVMatToArray`: the bytes of the matrix
become a `u8` array of `step` by `height`, from which each channel is picked with
stride `channels` and assigned to one slice of the result. -/
def Convert (X : Externals α) (input : Mat) (transpose : Bool) : Except Exception (af.array α) := do
  let width := input.cols
  let height := input.rows
  let channels := input.channels
  let dtype := GetAfDtypeFromCVType input.depth
  let scanWidth := input.step
  let interleaved ← af.array.ofHost X ⟨scanWidth, height, 1, 1⟩ (input.data.map X.ofByte) .u8
  let dims : af.dim4 := ⟨width, height, channels, 1⟩
  let sliced ← af.constant X dims dtype
  let sliced ← (List.range channels).foldlM (fun (sliced : af.array α) c => do
      let ch ← interleaved.rows c (scanWidth - 1) channels
      sliced.assignSlice X c ch) sliced
  return (if transpose then af.transpose sliced else sliced)

/-- The conversion `CVMatToArray(const cv::Mat&, bool)`. -/
def CVMatToArray (X : Externals α) (input : Mat) (transpose : Bool) :
    Except Exception (af.array α) :=
  if input.empty then .ok (af.array.empty X)
  else Convert X input transpose

/-- The conversion `CVMatToArray(const std::vector<cv::Mat>&, bool)`. -/
def CVMatToArray_vector (X : Externals α) (inputs : List Mat) (transpose : Bool) :
    Except Exception (af.array α) :=
  if inputs.length = 0 then .ok (af.array.empty X)
  else
    inputs.foldlM (fun (output : af.array α) m => do
      let converted ← Convert X m transpose
      af.join 2 output converted) (af.array.empty X)

/-- The mapping `GetCVTypeFromAfDtype` from an element type and a channel count to a
matrix type. -/
def GetCVTypeFromAfDtype (type : af_dtype) (channels : Nat) : Int :=
  match type with
  | .u8 => CV_MAKETYPE CV_8U channels
  | .b8 => CV_MAKETYPE CV_8S channels
  | .u16 => CV_MAKETYPE CV_16U channels
  | .s16 => CV_MAKETYPE CV_16S channels
  | .s32 => CV_MAKETYPE CV_32S channels
  | .f32 => CV_MAKETYPE CV_32F channels
  | .f64 => CV_MAKETYPE CV_64F channels
  | _ => CV_MAKETYPE CV_32F channels

/-- The constructor `cv::Mat(rows, cols, type)` with `int` arguments: storage for
`rows` rows of `cols` elements, not initialised; negative extents are refused. -/
def Mat.create (X : Externals α) (rows cols type : Int) : Except Exception Mat :=
  if rows < 0 ∨ cols < 0 then .error (.cv_exception "negative size")
  else
    let t := (type % 4096).toNat
    let elem := (t / 8 % 512 + 1) * elemSize1 (t % 8)
    .ok { rows := rows.toNat, cols := cols.toNat, type := t, step := cols.toNat * elem,
          data := List.replicate (rows.toNat * cols.toNat * elem) X.indetByte }

/-- The conversion `ArrayToCVMat(input, transpose)`.  The extents `dims[0]`, `dims[1]`
are converted to `int` for the matrix constructor; `host` writes the bytes of all
elements of `packed` to the data pointer of the matrix.  When more bytes are written
than the constructor allocated, the source writes past the end of the matrix data: the
result then carries all the bytes written, so that `data.length` exceeds
`rows * cols * elemSize`, and records nothing else of what the source does. -/
def ArrayToCVMat (X : Externals α) (input : af.array α) (transpose : Bool) :
    Except Exception Mat := do
  if input.isempty then return Mat.default
  if input.dims 2 > 3 then
    throw (.runtime_error "OpenCV Images doesn't support more than 3 channels")
  let sliced := if transpose then af.transpose input else input
  let dims := sliced.dim
  let output ← Mat.create X (Int.bmod dims.d0 (2 ^ 32)) (Int.bmod dims.d1 (2 ^ 32))
    (GetCVTypeFromAfDtype sliced.type dims.d2)
  let interleaved := if dims.d2 > 1 then af.reorder sliced 2 1 0 3 else af.reorder sliced 1 0 2 3
  let packed ← af.moddims interleaved ⟨dims.d0 * dims.d2, dims.d1, 1, 1⟩
  let written := packed.host.flatMap (X.toBytes packed.type)
  return { output with data := written ++ output.data.drop written.length }

/-! ### Auxiliary definitions for the statements: accepted element types, and concrete inputs -/

/-- The element types for which `AfArrayToITKImage` calls the worker. -/
def acceptedType (t : af_dtype) : Prop :=
  t = .f64 ∨ t = .f32 ∨ t = .s16 ∨ t = .u16 ∨ t = .u8

instance (t : af_dtype) : Decidable (acceptedType t) := by
  unfold acceptedType; infer_instance

/-- A concrete interpretation of the external value operations, with integers as
values: conversion to an integer type reduces into the range of that type (to 0 or 1
for `b8`), every other conversion keeps the value; a value of a type of `n` bytes is
held by its `n` low base-256 digits, lowest first. -/
def intExternals : Externals Int :=
  { conv := fun _ dst v =>
      match dst with
      | .u8 => v % 256
      | .b8 => if v = 0 then 0 else 1
      | .u16 => v % 65536
      | .s16 => (v + 32768) % 65536 - 32768
      | .s32 => (v + 2147483648) % 4294967296 - 2147483648
      | .u32 => v % 4294967296
      | _ => v,
    zero := 0,
    indet := -1,
    indetExtent := fun _ => 0,
    indetByte := 0,
    ofByte := fun b => (b : Int),
    toBytes := fun t v =>
      (List.range (af.sizeOfDtype t)).map (fun i => (v / 256 ^ i % 256).toNat),
    mixPixel := fun _ n px => List.replicate n (px.headD 0) }

/-- The 2 by 2 single-channel `u8` array whose column-major buffer is `[1, 2, 3, 4]`. -/
def sample2x2 : af.array Int :=
  { dim := ⟨2, 2, 1, 1⟩, type := .u8, get := fun i j _ _ => 1 + (i : Int) + 2 * (j : Int) }

/-- A 2 by 3 array with 3 channels of type `u8`; the element at `(i, j, k)` is
`100 * k + 10 * j + i`. -/
def sampleRGB : af.array Int :=
  { dim := ⟨2, 3, 3, 1⟩, type := .u8,
    get := fun i j k _ => 100 * (k : Int) + 10 * (j : Int) + (i : Int) }

/-- A 2-D RGB image of width 2 and height 1 with pixels `(1, 2, 3)` and `(4, 5, 6)`. -/
def sampleImage : Image Int :=
  { index := [0, 0], size := [2, 1], spacing := [1, 1], buffer := [1, 2, 3, 4, 5, 6] }

/-- A 2-D image without pixels (size `(0, 0)`). -/
def emptyImage : Image Int :=
  { index := [0, 0], size := [0, 0], spacing := [1, 1], buffer := [] }

/-- A 2-D scalar image of width `2 ^ 32 + 1` and height 1, all pixels 0. -/
def wideImage : Image Int :=
  { index := [0, 0], size := [4294967297, 1], spacing := [1, 1],
    buffer := List.replicate 4294967297 0 }

/-- A single-channel `u8` array with extents `(1, 2 ^ 32 + 1, 1, 1)`, all elements 0. -/
def wideArray : af.array Int :=
  { dim := ⟨1, 4294967297, 1, 1⟩, type := .u8, get := fun _ _ _ _ => 0 }

/-- A `u8` array with extents `(1, 1, 2 ^ 32 + 1, 1)`, all elements 0. -/
def deepArray : af.array Int :=
  { dim := ⟨1, 1, 4294967297, 1⟩, type := .u8, get := fun _ _ _ _ => 0 }

/-- A 1 by 1 single-channel array of the given element type holding the value 5. -/
def unitArray (t : af_dtype) : af.array Int :=
  { dim := ⟨1, 1, 1, 1⟩, type := t, get := fun _ _ _ _ => 5 }

/-- A 2-D image type with `c` components of type `u8`. -/
def imageTypeU8 (c : Nat) : ImageType :=
  { ImageDimension := 2, Components := c, ValueType := .u8 }

/-- The bytes of channel `k` of the element at row `r`, column `q` of a matrix: the
`elemSize1` bytes at offset `r * step + (q * channels + k) * elemSize1` from the data
pointer (the address OpenCV computes for `ptr(r)[q * channels + k]`). -/
def Mat.channelBytes (m : Mat) (r q k : Nat) : List Nat :=
  (m.data.drop (r * m.step + (q * m.channels + k) * elemSize1 m.depth)).take
    (elemSize1 m.depth)

/-- A single-channel `u8` array with extents `(1, 1, 1, 2)`: two batches of one element,
7 and 8. -/
def batchArray : af.array Int :=
  { dim := ⟨1, 1, 1, 2⟩, type := .u8, get := fun _ _ _ l => 7 + (l : Int) }

/-- A single-channel `u8` array with extents `(2 ^ 31, 1, 1, 1)`, all elements 0. -/
def tallArray : af.array Int :=
  { dim := ⟨2147483648, 1, 1, 1⟩, type := .u8, get := fun _ _ _ _ => 0 }

/-- A 3-D scalar image of size `(2, 1, 1)` with pixels 1 and 2. -/
def sampleImage3D : Image Int :=
  { index := [0, 0, 0], size := [2, 1, 1], spacing := [1, 1, 1], buffer := [1, 2] }

/-- The 3-D image type with scalar pixels of type `u8`. -/
def imageType3D : ImageType :=
  { ImageDimension := 3, Components := 1, ValueType := .u8 }

/-- A matrix of type `CV_16UC1` with one row and one column; its element 513 is held
by the two bytes 1 and 2. -/
def mat16 : Mat := { rows := 1, cols := 1, type := 2, step := 2, data := [1, 2] }

/-- A matrix of type `CV_8UC1` with one row and one column holding 5. -/
def unitMat8U : Mat := { rows := 1, cols := 1, type := 0, step := 1, data := [5] }

/-- The depth code to which `GetCVTypeFromAfDtype` maps an element type. -/
def mappedDepth (t : af_dtype) : Nat := (GetCVTypeFromAfDtype t 1).toNat

/-- The planar array that `Convert` assembles from a matrix whose row step is
`cols * channels`: extents `(cols, rows, channels, 1)`, and at `(x, y, c)` the byte at
offset `c + channels * x + cols * channels * y` read as a `u8` value and converted to
the element type mapped from the depth of the matrix. -/
def planarOf {α : Type} (X : Externals α) (m : Mat) : af.array α :=
  { dim := ⟨m.cols, m.rows, m.channels, 1⟩, type := GetAfDtypeFromCVType m.depth,
    get := fun i j k _ =>
      if k < m.channels then
        castTo X .u8 (GetAfDtypeFromCVType m.depth)
          ((m.data.map X.ofByte).getD (k + m.channels * i + m.cols * m.channels * j) X.indet)
      else X.zero }

/-- A well-formed, non-empty matrix without padding whose channels take one byte each:
depth `CV_8U` or `CV_8S`, a type code of 12 bits, `int` extents, row step
`cols * channels`, `rows * step` bytes of data, each below 256. -/
def Mat.packed8 (m : Mat) : Prop :=
  0 < m.rows ∧ 0 < m.cols ∧ m.rows < 2 ^ 31 ∧ m.cols < 2 ^ 31 ∧ m.type < 4096 ∧
    (m.depth = 0 ∨ m.depth = 1) ∧ m.step = m.cols * m.channels ∧
    m.data.length = m.rows * m.step ∧ ∀ b ∈ m.data, b < 256

instance (m : Mat) : Decidable m.packed8 := by
  unfold Mat.packed8; infer_instance

/-- The indices `dim` of the accesses `size[dim]` made by the loop of `ITKImageToAfArray`
over the axes it is given (those from the third on): the extent of each axis is read in
turn, and the loop stops after the first extent that is not 1. -/
def loopAccesses {α : Type} (X : Externals α) (img : Image α) : List Nat → List Nat
  | [] => []
  | dim :: rest =>
    if img.sizeAt X dim ≠ 1 then [dim] else dim :: loopAccesses X img rest

/-- The indices `i` of all accesses `size[i]` made by `ITKImageToAfArray` for a non-null
image, in execution order: those of the loop over the axes from the third on (entered
when `ImageDimension > 2`), and, unless one of the two exceptions has been raised
before, `size[0]` for `w` and `size[1]` for `h`. -/
def sizeAccesses {α : Type} (X : Externals α) (T : ImageType) (img : Image α) : List Nat :=
  (if T.ImageDimension > 2 then loopAccesses X img (List.range' 2 (T.ImageDimension - 2))
    else []) ++
  (if IsA2DImage X T img then []
    else if T.Components ≠ 1 ∧ T.Components ≠ 3 ∧ T.Components ≠ 4 then []
    else [0, 1])

/-- The 1-D image type with scalar pixels of type `u8`. -/
def imageType1D : ImageType :=
  { ImageDimension := 1, Components := 1, ValueType := .u8 }

/-- A 1-D scalar image of length 2 with pixels 1 and 2. -/
def line1D : Image Int :=
  { index := [0], size := [2], spacing := [1], buffer := [1, 2] }

/-- The interpretation `intExternals` with 1 in place of 0 as the content found beyond
the end of an extent array. -/
def intExternalsOne : Externals Int :=
  { intExternals with indetExtent := fun _ => 1 }

/-! ### Index arithmetic and the loop nest of the de-interleaving helper -/

theorem decode0 (A a r : Nat) (ha : a < A) : (a + A * r) % A = a := by
  rw [Nat.add_mul_mod_self_left]; exact Nat.mod_eq_of_lt ha

theorem decode1 (A a r : Nat) (ha : a < A) : (a + A * r) / A = r := by
  have hA : 0 < A := by omega
  rw [Nat.add_mul_div_left _ _ hA, Nat.div_eq_of_lt ha, Nat.zero_add]

theorem lt_mul_of_digits (A B a b : Nat) (ha : a < A) (hb : b < B) : a + A * b < A * B := by
  calc a + A * b < A + A * b := by omega
    _ = A * (b + 1) := by ring
    _ ≤ A * B := Nat.mul_le_mul_left A hb

theorem applyWrites_cons (w : Nat × α) (ws : List (Nat × α)) (out : List α) :
    applyWrites (w :: ws) out = applyWrites ws (out.set w.1 w.2) := rfl

theorem applyWrites_length (ws : List (Nat × α)) (out : List α) :
    (applyWrites ws out).length = out.length := by
  induction ws generalizing out with
  | nil => rfl
  | cons w ws ih => rw [applyWrites_cons, ih, List.length_set]

theorem applyWrites_untouched (ws : List (Nat × α)) (out : List α) (q : Nat)
    (h : ∀ w ∈ ws, w.1 ≠ q) : (applyWrites ws out)[q]? = out[q]? := by
  induction ws generalizing out with
  | nil => rfl
  | cons w ws ih =>
    rw [applyWrites_cons, ih _ (fun w' hw' => h w' (List.mem_cons_of_mem _ hw'))]
    rw [List.getElem?_set, if_neg (h w (List.mem_cons_self _ _))]

theorem applyWrites_written (ws : List (Nat × α)) (out : List α) (q : Nat) (v : α)
    (hfun : ∀ w ∈ ws, w.1 = q → w.2 = v) (hmem : ∃ w ∈ ws, w.1 = q) (hq : q < out.length) :
    (applyWrites ws out)[q]? = some v := by
  induction ws generalizing out with
  | nil => obtain ⟨w, hw, _⟩ := hmem; cases hw
  | cons w ws ih =>
    rw [applyWrites_cons]
    by_cases hlater : ∃ w' ∈ ws, w'.1 = q
    · exact ih _ (fun w' hw' => hfun w' (List.mem_cons_of_mem _ hw')) hlater
        (by rw [List.length_set]; exact hq)
    · have hno : ∀ w' ∈ ws, w'.1 ≠ q := fun w' hw' he => hlater ⟨w', hw', he⟩
      have hw : w.1 = q := by
        obtain ⟨w', hw', he⟩ := hmem
        rcases List.mem_cons.1 hw' with rfl | h'
        · exact he
        · exact absurd he (hno w' h')
      rw [applyWrites_untouched _ _ _ hno, List.getElem?_set, if_pos hw, if_pos (by omega),
        hfun w (List.mem_cons_self _ _) hw]

theorem sliceOffsets_getD (c w h k : Nat) (hk : k < c) :
    ((List.range c).map (fun c => c * w * h % 2 ^ 32)).getD k 0 = k * w * h % 2 ^ 32 := by
  simp [List.getD_eq_getElem?_getD, List.getElem?_map, List.getElem?_range hk]

theorem mem_helperWrites (X : Externals α) (c : Nat) (inPtr : List α) (w h : Nat)
    (q : Nat) (v : α) :
    (q, v) ∈ helperWrites X c inPtr w h ↔
      ∃ j, j < h ∧ ∃ i, i < w ∧ ∃ k, k < c ∧
        q = k * w * h % 2 ^ 32 + (i + w * j) % 2 ^ 32 ∧
        v = inPtr.getD (c * ((i + w * j) % 2 ^ 32) + k) X.indet := by
  simp only [helperWrites, List.mem_flatMap, List.mem_map, List.mem_range, Prod.mk.injEq]
  constructor
  · rintro ⟨j, hj, i, hi, k, hk, hq, hv⟩
    refine ⟨j, hj, i, hi, k, hk, ?_, hv.symm⟩
    rw [← hq, sliceOffsets_getD c w h k hk]
  · rintro ⟨j, hj, i, hi, k, hk, hq, hv⟩
    refine ⟨j, hj, i, hi, k, hk, ?_, hv.symm⟩
    rw [hq, sliceOffsets_getD c w h k hk]

theorem helper_spec (X : Externals α) (c : Nat) (inPtr : List α) (w h : Nat)
    (hb : w * h * c < 2 ^ 32) :
    (ITKRGBArrayToVectorArrayHelper X c inPtr w h).length = w * h * c ∧
    ∀ i j k, i < w → j < h → k < c →
      (ITKRGBArrayToVectorArrayHelper X c inPtr w h)[k * (w * h) + (i + w * j)]? =
        some (inPtr.getD (c * (i + w * j) + k) X.indet) := by
  have hlen : (ITKRGBArrayToVectorArrayHelper X c inPtr w h).length = w * h * c := by
    rw [ITKRGBArrayToVectorArrayHelper, applyWrites_length, List.length_replicate,
      Nat.mod_eq_of_lt hb]
  refine ⟨hlen, ?_⟩
  intro i j k hi hj hk
  have hs : ∀ i j, i < w → j < h → i + w * j < w * h := fun i j hi hj =>
    lt_mul_of_digits w h i j hi hj
  have hwh : ∀ k, k < c → k * (w * h) + w * h ≤ w * h * c := by
    intro k hk
    calc k * (w * h) + w * h = (w * h) * (k + 1) := by ring
      _ ≤ w * h * c := Nat.mul_le_mul_left _ hk
  have hnorm : ∀ i j k, i < w → j < h → k < c →
      k * w * h % 2 ^ 32 + (i + w * j) % 2 ^ 32 = k * (w * h) + (i + w * j) ∧
      (i + w * j) % 2 ^ 32 = i + w * j := by
    intro i j k hi hj hk
    have h1 := hs i j hi hj
    have h2 := hwh k hk
    have e : k * w * h = k * (w * h) := by ring
    rw [e, Nat.mod_eq_of_lt (by omega), Nat.mod_eq_of_lt (by omega)]
    exact ⟨rfl, rfl⟩
  unfold ITKRGBArrayToVectorArrayHelper
  apply applyWrites_written
  · rintro ⟨q, v⟩ hmem hq
    simp only at hq
    rw [mem_helperWrites] at hmem
    obtain ⟨j', hj', i', hi', k', hk', hq', hv'⟩ := hmem
    obtain ⟨e1, e2⟩ := hnorm i' j' k' hi' hj' hk'
    rw [e1] at hq'
    rw [e2] at hv'
    have h1 := hs i j hi hj
    have h1' := hs i' j' hi' hj'
    have hEq : (i' + w * j') + (w * h) * k' = (i + w * j) + (w * h) * k := by
      have : k' * (w * h) + (i' + w * j') = k * (w * h) + (i + w * j) := by rw [← hq', hq]
      linarith
    have hs_eq : i' + w * j' = i + w * j := by
      have := congrArg (· % (w * h)) hEq
      simpa [decode0 (w * h) _ _ h1, decode0 (w * h) _ _ h1'] using this
    have hk_eq : k' = k := by
      have := congrArg (· / (w * h)) hEq
      simpa [decode1 (w * h) _ _ h1, decode1 (w * h) _ _ h1'] using this
    simp only [hv', hs_eq, hk_eq]
  · refine ⟨(k * (w * h) + (i + w * j), inPtr.getD (c * (i + w * j) + k) X.indet), ?_, rfl⟩
    rw [mem_helperWrites]
    obtain ⟨e1, e2⟩ := hnorm i j k hi hj hk
    exact ⟨j, hj, i, hi, k, hk, by rw [e1], by rw [e2]⟩
  · have h1 := hs i j hi hj
    have h2 := hwh k hk
    rw [List.length_replicate, Nat.mod_eq_of_lt hb]
    omega
theorem dim4_pos (d : af.dim4) (hne : d.elements ≠ 0) :
    0 < d.d0 ∧ 0 < d.d1 ∧ 0 < d.d2 ∧ 0 < d.d3 := by
  unfold af.dim4.elements at hne
  refine ⟨?_, ?_, ?_, ?_⟩ <;> (apply Nat.pos_of_ne_zero; rintro h; simp [h] at hne)

theorem verifyDims_ndims (d : af.dim4) (hne : d.elements ≠ 0) :
    af.verifyDims d.ndims d = true := by
  obtain ⟨h0, h1, h2, h3⟩ := dim4_pos d hne
  have hall : ∀ i, 1 ≤ d.get i := by
    intro i
    unfold af.dim4.get
    split <;> omega
  have hn : 1 ≤ d.ndims := by
    unfold af.dim4.ndims
    split_ifs <;> omega
  simp [af.verifyDims, hn, hall]

theorem ndims_get (d : af.dim4) (hne : d.elements ≠ 0) (i : Nat) (hi4 : i < 4) :
    (if i < d.ndims then d.get i else 1) = d.get i := by
  obtain ⟨h0, h1, h2, h3⟩ := dim4_pos d hne
  by_cases hi : i < d.ndims
  · rw [if_pos hi]
  · rw [if_neg hi]
    have hone : d.elements = 1 → d.d0 = 1 ∧ d.d1 = 1 ∧ d.d2 = 1 ∧ d.d3 = 1 := by
      intro e1
      unfold af.dim4.elements at e1
      have a1 := Nat.eq_one_of_mul_eq_one_left e1
      have a2 := Nat.eq_one_of_mul_eq_one_right e1
      have a3 := Nat.eq_one_of_mul_eq_one_left a2
      have a4 := Nat.eq_one_of_mul_eq_one_right a2
      have a5 := Nat.eq_one_of_mul_eq_one_left a4
      have a6 := Nat.eq_one_of_mul_eq_one_right a4
      exact ⟨a6, a5, a3, a1⟩
    unfold af.dim4.ndims at hi
    unfold af.dim4.get
    by_cases e1 : d.elements = 1
    · obtain ⟨b0, b1, b2, b3⟩ := hone e1
      split <;> omega
    · rw [if_neg hne, if_neg e1] at hi
      by_cases e3 : d.d3 = 1
      · by_cases e2 : d.d2 = 1
        · by_cases e1' : d.d1 = 1
          · simp [e3, e2, e1'] at hi
            split <;> omega
          · simp [e3, e2, e1'] at hi
            split <;> omega
        · simp [e3, e2] at hi
          split <;> omega
      · simp [e3] at hi
        omega

theorem af_create_array_ok (X : Externals α) (data : List α) (d : af.dim4) (t : af_dtype)
    (hne : d.elements ≠ 0) :
    af.af_create_array X data d.ndims d t =
      (.AF_SUCCESS, some ⟨d, t,
        fun i j k l => data.getD (i + d.d0 * (j + d.d1 * (k + d.d2 * l))) X.indet⟩) := by
  have g0 := ndims_get d hne 0 (by omega)
  have g1 := ndims_get d hne 1 (by omega)
  have g2 := ndims_get d hne 2 (by omega)
  have g3 := ndims_get d hne 3 (by omega)
  simp only [af.af_create_array, verifyDims_ndims d hne, if_true, g0, g1, g2, g3]
  rfl

/-! ### Closed forms of the two ITK conversions -/

theorem host_length (a : af.array α) : a.host.length = a.elements := by
  simp [af.array.host]

theorem host_getElem? (a : af.array α) (p : Nat) (hp : p < a.elements) :
    a.host[p]? = some (a.flat p) := by
  simp [af.array.host, List.getElem?_map, List.getElem?_range hp]

theorem size_two (f : Nat → Nat) (s0 s1 : Nat) :
    (((List.range 2).map f).set 0 s0).set 1 s1 = [s0, s1] := by
  simp [List.range_succ]

theorem AfArrayToITKImage_ok (X : Externals α) (T : ImageType) (a : af.array α) (tr : Bool)
    (hne : a.elements ≠ 0) (hty : acceptedType a.type)
    (hch : a.dims 2 % 2 ^ 32 = 1 ∨ a.dims 2 % 2 ^ 32 = 3 ∨ a.dims 2 % 2 ^ 32 = 4) :
    ∃ img, AfArrayToITKImage X T a tr = .ok img ∧
      img.index = List.replicate T.ImageDimension 0 ∧
      img.spacing = List.replicate T.ImageDimension 1 ∧
      img.size = (((List.range T.ImageDimension).map X.indetExtent).set 0
          (if tr then a.dims 0 else a.dims 1)).set 1 (if tr then a.dims 1 else a.dims 0) := by
  unfold acceptedType at hty
  have h1 : a.isempty = false := by simp [af.array.isempty, hne]
  have h2 : ¬ (a.dims 2 % 2 ^ 32 ≠ 1 ∧ a.dims 2 % 2 ^ 32 ≠ 3 ∧ a.dims 2 % 2 ^ 32 ≠ 4) := by
    omega
  simp only [AfArrayToITKImage, h1, hty, ITKConvertArray, h2]
  simp only [Bool.false_eq_true, if_false, if_true]
  refine ⟨_, rfl, rfl, rfl, ?_⟩
  cases tr <;> simp

theorem flat_decode (g : Nat → Nat → Nat → Nat → α) (A B C D : Nat) (t : af_dtype)
    (i j k : Nat) (hi : i < A) (hj : j < B) (hk : k < C) :
    af.array.flat ⟨⟨A, B, C, D⟩, t, g⟩ (i + A * (j + B * k)) = g i j k 0 := by
  have hA : 0 < A := by omega
  have hB : 0 < B := by omega
  have hAB : 0 < A * B := Nat.mul_pos hA hB
  have hjk : j + B * k < B * C := lt_mul_of_digits B C j k hj hk
  have e0 : (i + A * (j + B * k)) % A = i := decode0 A i _ hi
  have e1 : (i + A * (j + B * k)) / A = j + B * k := decode1 A i _ hi
  have e2 : (i + A * (j + B * k)) / (A * B) = k := by
    rw [← Nat.div_div_eq_div_mul, e1, decode1 B j k hj]
  have e3 : (i + A * (j + B * k)) / (A * B * C) = 0 := by
    rw [← Nat.div_div_eq_div_mul, e2]; exact Nat.div_eq_of_lt hk
  simp only [af.array.flat, e0, e1, e2, e3, decode0 B j k hj, Nat.mod_eq_of_lt hk]

theorem pixel_map_aux (X : Externals α) (T : ImageType) (a : af.array α) (d0 d1 c : Nat)
    (hdim : a.dim = ⟨d0, d1, c, 1⟩) (h0 : 0 < d0) (h1 : 0 < d1)
    (hc : c = 1 ∨ c = 3 ∨ c = 4) (hty : acceptedType a.type)
    (hcomp : T.Components = c) (hD : T.ImageDimension = 2) :
    ∃ img, AfArrayToITKImage X T a false = .ok img ∧ img.index = [0, 0] ∧
      img.size = [d1, d0] ∧ img.spacing = [1, 1] ∧ img.buffer.length = c * (d1 * d0) ∧
      ∀ x y k, x < d1 → y < d0 → k < c →
        img.component c d1 x y k = some (castTo X a.type T.ValueType (a.get y x k 0)) := by
  obtain ⟨dim, t, g⟩ := a
  simp only at hdim hty
  subst hdim
  unfold acceptedType at hty
  have hc32 : c % 2 ^ 32 = c := by omega
  have hcpos : 0 < c := by omega
  have hne : (af.array.isempty ⟨⟨d0, d1, c, 1⟩, t, g⟩) = false := by
    have : d0 * d1 * c ≠ 0 := by positivity
    simp [af.array.isempty, af.array.elements, af.dim4.elements, this]
  have h2 : ¬ (c ≠ 1 ∧ c ≠ 3 ∧ c ≠ 4) := by omega
  simp only [AfArrayToITKImage, hne, hty, ITKConvertArray, af.array.dims, af.dim4.get, hc32, h2,
    hcomp, hD, ConvertPixelBuffer.Convert]
  simp only [Bool.false_eq_true, if_false, if_true, Bool.not_false, size_two]
  have hcur : ∃ cur : af.array α, cur = af.array.as X
      (if c > 1 then af.reorder ⟨⟨d0, d1, c, 1⟩, t, g⟩ 2 1 0 3
       else af.reorder ⟨⟨d0, d1, c, 1⟩, t, g⟩ 1 0 2 3) T.ValueType := ⟨_, rfl⟩
  obtain ⟨cur, hcur⟩ := hcur
  rw [← hcur]
  have hel : cur.elements = c * (d1 * d0) := by
    rcases hc with rfl | rfl | rfl <;>
      simp [hcur, af.array.as, af.reorder, af.array.elements, af.dim4.elements, af.dim4.get] <;> ring
  have hflat : ∀ x y k, x < d1 → y < d0 → k < c →
      cur.flat (k + c * (x + d1 * y)) = castTo X t T.ValueType (g y x k 0) := by
    intro x y k hx hy hk
    rcases hc with rfl | rfl | rfl
    · have hk0 : k = 0 := by omega
      subst hk0
      have e : 0 + 1 * (x + d1 * y) = x + d1 * (y + d0 * 0) := by ring
      rw [e, hcur]
      simp only [af.array.as, af.reorder, af.dim4.get, gt_iff_lt, lt_self_iff_false, if_false]
      rw [flat_decode _ d1 d0 1 1 _ x y 0 hx hy (by omega)]
      simp
    · rw [hcur]
      simp only [af.array.as, af.reorder, af.dim4.get, gt_iff_lt, Nat.one_lt_ofNat, if_true]
      rw [flat_decode _ 3 d1 d0 1 _ k x y hk hx hy]
      simp
    · rw [hcur]
      simp only [af.array.as, af.reorder, af.dim4.get, gt_iff_lt, Nat.one_lt_ofNat, if_true]
      rw [flat_decode _ 4 d1 d0 1 _ k x y hk hx hy]
      simp
  have hlen : cur.host.length = c * (d1 * d0) := by rw [host_length, hel]
  have htake : List.take (c * (d1 * d0)) cur.host = cur.host :=
    List.take_of_length_le (by omega)
  have hdrop : List.drop cur.host.length (List.replicate ([d1, d0].prod * c) X.indet) = [] := by
    apply List.drop_eq_nil_of_le
    simp [hlen]
    apply le_of_eq; ring
  rw [htake, hdrop, List.append_nil]
  refine ⟨_, rfl, by simp, rfl, by simp, hlen, ?_⟩
  intro x y k hx hy hk
  have hp : k + c * (x + d1 * y) < cur.elements := by
    rw [hel]
    exact lt_mul_of_digits c (d1 * d0) k _ hk (lt_mul_of_digits d1 d0 x y hx hy)
  simp only [Image.component]
  rw [host_getElem? cur _ hp, hflat x y k hx hy hk]

theorem layout_aux (X : Externals α) (T : ImageType) (img : Image α) (w h c : Nat)
    (h2D : IsA2DImage X T img = false)
    (hw : img.sizeAt X 0 = w) (hh : img.sizeAt X 1 = h) (hcomp : T.Components = c)
    (hc : c = 1 ∨ c = 3 ∨ c = 4) (hw0 : 0 < w) (hh0 : 0 < h)
    (hw32 : w < 2 ^ 32) (hh32 : h < 2 ^ 32) (hprod : c ≠ 1 → w * h * c < 2 ^ 32) :
    ∃ arr, ITKImageToAfArray X T (some img) = .ok arr ∧ arr.dim = ⟨h, w, c, 1⟩ ∧
      arr.type = T.ValueType ∧
      ∀ x y k, x < w → y < h → k < c →
        arr.get y x k 0 = img.buffer.getD (k + c * (x + w * y)) X.indet := by
  have hcpos : 0 < c := by omega
  have hne : (⟨w, h, c, 1⟩ : af.dim4).elements ≠ 0 := by
    have : w * h * c ≠ 0 := by positivity
    simpa [af.dim4.elements] using this
  have hch : ¬ (c ≠ 1 ∧ c ≠ 3 ∧ c ≠ 4) := by omega
  simp only [ITKImageToAfArray, h2D, createFromImage, hw, hh, hcomp, hch,
    Nat.mod_eq_of_lt hw32, Nat.mod_eq_of_lt hh32, af_create_array_ok _ _ _ _ hne]
  simp only [Bool.false_eq_true, if_false]
  refine ⟨_, rfl, rfl, rfl, ?_⟩
  intro x y k hx hy hk
  simp only [af.array.T, af.transpose]
  rcases hc with rfl | rfl | rfl
  · have hk0 : k = 0 := by omega
    subst hk0
    simp
  · have hb : w * h * 3 < 2 ^ 32 := hprod (by omega)
    have hs := (helper_spec X 3 img.buffer w h hb).2 x y k hx hy hk
    have e : x + w * (y + h * (k + 3 * 0)) = k * (w * h) + (x + w * y) := by ring
    have e' : k + 3 * (x + w * y) = 3 * (x + w * y) + k := by ring
    simp only [ITKRGBArrayToVectorArray, hcomp, if_true, e, e']
    norm_num only [if_false, if_true]
    rw [List.getD_eq_getElem?_getD, hs]
    simp
  · have hb : w * h * 4 < 2 ^ 32 := hprod (by omega)
    have hs := (helper_spec X 4 img.buffer w h hb).2 x y k hx hy hk
    have e : x + w * (y + h * (k + 4 * 0)) = k * (w * h) + (x + w * y) := by ring
    have e' : k + 4 * (x + w * y) = 4 * (x + w * y) + k := by ring
    simp only [ITKRGBArrayToVectorArray, hcomp, if_true, e, e']
    norm_num only [if_false, if_true]
    rw [List.getD_eq_getElem?_getD, hs]
    simp

theorem not_IsA2DImage_of_dim_two (X : Externals α) (T : ImageType) (img : Image α)
    (hD : T.ImageDimension = 2) : IsA2DImage X T img = false := by
  simp [IsA2DImage, hD]

theorem castTo_self (X : Externals α) (t : af_dtype) (v : α) : castTo X t t v = v := by
  simp [castTo]

theorem digits_of_lt (c w h p : Nat) (hp : p < c * (w * h)) :
    p % c < c ∧ p / c % w < w ∧ p / c / w < h ∧ p = p % c + c * (p / c % w + w * (p / c / w)) := by
  have hc : 0 < c := by
    rcases Nat.eq_zero_or_pos c with h0 | h0
    · subst h0; simp at hp
    · exact h0
  have hs : p / c < w * h := by
    rw [Nat.div_lt_iff_lt_mul hc]; rw [Nat.mul_comm]; exact hp
  have hw : 0 < w := by
    rcases Nat.eq_zero_or_pos w with h0 | h0
    · subst h0; simp at hs
    · exact h0
  refine ⟨Nat.mod_lt _ hc, Nat.mod_lt _ hw, ?_, ?_⟩
  · rw [Nat.div_lt_iff_lt_mul hw]; rw [Nat.mul_comm]; exact hs
  · rw [Nat.mod_add_div (p / c) w, Nat.mod_add_div p c]

theorem roundtrip_image_aux (X : Externals α) (T : ImageType) (img : Image α) (w h c : Nat)
    (hD : T.ImageDimension = 2) (hcomp : T.Components = c) (hc : c = 1 ∨ c = 3 ∨ c = 4)
    (hty : acceptedType T.ValueType)
    (hsize : img.size = [w, h]) (hbuf : img.buffer.length = c * (w * h))
    (hw0 : 0 < w) (hh0 : 0 < h) (hw32 : w < 2 ^ 32) (hh32 : h < 2 ^ 32)
    (hprod : c ≠ 1 → w * h * c < 2 ^ 32) :
    (ITKImageToAfArray X T (some img)).bind (fun a => AfArrayToITKImage X T a false) =
      .ok { index := [0, 0], size := [w, h], spacing := [1, 1], buffer := img.buffer } := by
  obtain ⟨arr, harr, hdim, htype, hget⟩ := layout_aux X T img w h c
    (not_IsA2DImage_of_dim_two X T img hD) (by simp [Image.sizeAt, hsize])
    (by simp [Image.sizeAt, hsize]) hcomp hc hw0 hh0 hw32 hh32 hprod
  obtain ⟨out, hout, hidx, hsz, hsp, hlen, hpix⟩ := pixel_map_aux X T arr h w c hdim hh0 hw0 hc
    (by rw [htype]; exact hty) hcomp hD
  rw [harr]
  show AfArrayToITKImage X T arr false = _
  rw [hout]
  have hb : out.buffer = img.buffer := by
    apply List.ext_getElem?
    intro p
    by_cases hp : p < c * (w * h)
    · obtain ⟨hk, hx, hy, hpe⟩ := digits_of_lt c w h p hp
      have := hpix _ _ _ hx hy hk
      rw [Image.component, ← hpe, htype, castTo_self, hget _ _ _ hx hy hk, ← hpe,
        List.getD_eq_getElem?_getD] at this
      rw [this]
      have hin : p < img.buffer.length := by omega
      rw [List.getElem?_eq_getElem hin]
      simp
    · rw [List.getElem?_eq_none (by omega), List.getElem?_eq_none (by omega)]
  obtain ⟨oi, os, osp, ob⟩ := out
  simp only at hidx hsz hsp hb
  subst hidx hsz hsp hb
  rfl

theorem roundtrip_array_aux (X : Externals α) (T : ImageType) (a : af.array α) (d0 d1 c : Nat)
    (hD : T.ImageDimension = 2) (hcomp : T.Components = c) (hc : c = 1 ∨ c = 3 ∨ c = 4)
    (hty : acceptedType a.type) (hT : T.ValueType = a.type)
    (hdim : a.dim = ⟨d0, d1, c, 1⟩)
    (h0 : 0 < d0) (h1 : 0 < d1) (h032 : d0 < 2 ^ 32) (h132 : d1 < 2 ^ 32)
    (hprod : c ≠ 1 → d1 * d0 * c < 2 ^ 32) :
    ∃ arr, (AfArrayToITKImage X T a false).bind (fun img => ITKImageToAfArray X T (some img)) =
        .ok arr ∧ arr.dim = ⟨d0, d1, c, 1⟩ ∧ arr.type = a.type ∧
      ∀ i j k, i < d0 → j < d1 → k < c → arr.get i j k 0 = a.get i j k 0 := by
  obtain ⟨img, himg, hidx, hsz, hsp, hlen, hpix⟩ := pixel_map_aux X T a d0 d1 c hdim h0 h1 hc
    hty hcomp hD
  obtain ⟨arr, harr, hadim, hatype, hget⟩ := layout_aux X T img d1 d0 c
    (not_IsA2DImage_of_dim_two X T img hD) (by simp [Image.sizeAt, hsz])
    (by simp [Image.sizeAt, hsz]) hcomp hc h1 h0 h132 h032 hprod
  refine ⟨arr, ?_, hadim, by rw [hatype, hT], ?_⟩
  · rw [himg]; exact harr
  · intro i j k hi hj hk
    have := hpix j i k hj hi hk
    rw [Image.component, hT, castTo_self] at this
    rw [hget j i k hj hi hk, List.getD_eq_getElem?_getD, this]
    simp

theorem AfArrayToITKImage_ok_iff (X : Externals α) (T : ImageType) (a : af.array α) (tr : Bool) :
    (∃ img, AfArrayToITKImage X T a tr = .ok img) ↔
      (a.elements ≠ 0 ∧ acceptedType a.type ∧
        (a.dims 2 % 2 ^ 32 = 1 ∨ a.dims 2 % 2 ^ 32 = 3 ∨ a.dims 2 % 2 ^ 32 = 4)) := by
  constructor
  · rintro ⟨img, h⟩
    by_cases hne : a.elements = 0
    · simp [AfArrayToITKImage, af.array.isempty, hne] at h
    · have h1 : a.isempty = false := by simp [af.array.isempty, hne]
      by_cases hty : acceptedType a.type
      · refine ⟨hne, hty, ?_⟩
        by_contra hch
        have h2 : a.dims 2 % 2 ^ 32 ≠ 1 ∧ a.dims 2 % 2 ^ 32 ≠ 3 ∧ a.dims 2 % 2 ^ 32 ≠ 4 := by
          omega
        unfold acceptedType at hty
        simp only [AfArrayToITKImage, h1, hty, ITKConvertArray] at h
        rw [if_neg (by simp), if_pos trivial, if_pos h2] at h
        cases h
      · unfold acceptedType at hty
        simp only [AfArrayToITKImage, h1, hty] at h
        simp at h
  · rintro ⟨hne, hty, hch⟩
    obtain ⟨img, h, _⟩ := AfArrayToITKImage_ok X T a tr hne hty hch
    exact ⟨img, h⟩

theorem transpose_flag_aux (X : Externals α) (T : ImageType) (a : af.array α) :
    AfArrayToITKImage X T a true = AfArrayToITKImage X T (af.transpose a) false := by
  have hel : (af.transpose a).elements = a.elements := by
    simp only [af.transpose, af.array.elements, af.dim4.elements]
    rw [Nat.mul_comm a.dim.d1 a.dim.d0]
  simp only [AfArrayToITKImage, ITKConvertArray, af.array.isempty, hel]
  rfl

theorem af_create_array_success (X : Externals α) (data : List α) (n : Nat) (d : af.dim4)
    (t : af_dtype) (h : (af.af_create_array X data n d t).1 = .AF_SUCCESS) :
    ∃ out, af.af_create_array X data n d t = (.AF_SUCCESS, some out) := by
  unfold af.af_create_array at *
  by_cases hv : af.verifyDims n d = true
  · rw [if_pos hv]
    exact ⟨_, rfl⟩
  · rw [if_neg hv] at h
    cases h

theorem createFromImage_success (X : Externals α) (T : ImageType) (img : Image α)
    (h : (createFromImage X T img).1 = .AF_SUCCESS) :
    ∃ out, createFromImage X T img = (.AF_SUCCESS, some out) :=
  af_create_array_success X _ _ _ _ h

theorem IsA2DImage_iff (X : Externals α) (T : ImageType) (img : Image α) :
    IsA2DImage X T img = true ↔
      ∃ dim, 2 ≤ dim ∧ dim < T.ImageDimension ∧ img.sizeAt X dim ≠ 1 := by
  simp only [IsA2DImage, Bool.and_eq_true, decide_eq_true_eq, List.any_eq_true,
    List.mem_range'_1]
  constructor
  · rintro ⟨hD, dim, ⟨h2, hlt⟩, hne⟩
    exact ⟨dim, h2, by omega, hne⟩
  · rintro ⟨dim, h2, hlt, hne⟩
    exact ⟨by omega, dim, ⟨h2, by omega⟩, hne⟩

theorem ITKImageToAfArray_error_iff_aux (X : Externals α) (T : ImageType)
    (inp : Option (Image α))
    (hcreate : ∀ img, inp = some img → (createFromImage X T img).1 = .AF_SUCCESS) :
    ((∃ e, ITKImageToAfArray X T inp = .error e) ↔
      (inp = none ∨
       (∃ img dim, inp = some img ∧ 2 ≤ dim ∧ dim < T.ImageDimension ∧ img.sizeAt X dim ≠ 1) ∨
       (T.Components ≠ 1 ∧ T.Components ≠ 3 ∧ T.Components ≠ 4))) ∧
    ((∃ e, ITKImageToAfArray X T inp = .error e) ∨ (∃ arr, ITKImageToAfArray X T inp = .ok arr)) := by
  cases inp with
  | none =>
    refine ⟨⟨fun _ => Or.inl rfl, fun _ => ⟨_, rfl⟩⟩, Or.inl ⟨_, rfl⟩⟩
  | some img =>
    by_cases h2D : IsA2DImage X T img = true
    · have hex := (IsA2DImage_iff X T img).1 h2D
      have herr : ITKImageToAfArray X T (some img) =
          .error (.itkGeneric "ArrayFire only supports 2D and 1D images") := by
        simp [ITKImageToAfArray, h2D]
      obtain ⟨dim, h2, hlt, hne⟩ := hex
      refine ⟨⟨fun _ => Or.inr (Or.inl ⟨img, dim, rfl, h2, hlt, hne⟩), fun _ => ⟨_, herr⟩⟩,
        Or.inl ⟨_, herr⟩⟩
    · have h2D' : IsA2DImage X T img = false := by simpa using h2D
      have hnex : ¬ ∃ img' dim, some img = some img' ∧ 2 ≤ dim ∧ dim < T.ImageDimension ∧
          img'.sizeAt X dim ≠ 1 := by
        rintro ⟨img', dim, he, h2, hlt, hne⟩
        cases he
        exact h2D ((IsA2DImage_iff X T img).2 ⟨dim, h2, hlt, hne⟩)
      by_cases hch : T.Components ≠ 1 ∧ T.Components ≠ 3 ∧ T.Components ≠ 4
      · have herr : ITKImageToAfArray X T (some img) =
            .error (.itkGeneric "ITKArrayFireBridge only supports grayscale and 3-channel data") := by
          simp only [ITKImageToAfArray, h2D']
          rw [if_neg (by simp), if_pos hch]
        refine ⟨⟨fun _ => Or.inr (Or.inr hch), fun _ => ⟨_, herr⟩⟩, Or.inl ⟨_, herr⟩⟩
      · obtain ⟨out, hout⟩ := createFromImage_success X T img (hcreate img rfl)
        have hok : ITKImageToAfArray X T (some img) = .ok out.T := by
          simp only [ITKImageToAfArray, h2D']
          rw [if_neg (by simp), if_neg hch, hout]
        refine ⟨⟨?_, ?_⟩, Or.inr ⟨_, hok⟩⟩
        · rintro ⟨e, he⟩
          rw [hok] at he
          cases he
        · rintro (h | h | h)
          · cases h
          · exact absurd h hnex
          · exact absurd h hch

/-! ### The claims -/

/-- C1, counterexample: the claim promises the round trip image, array, image for
every 2-D image.  For the 2-D scalar `u8` image of size `(0, 0)` the first conversion
ends in the exception "Creation of af::array from data failed", so no image comes
back; for the 2-D scalar image of size `(2 ^ 32 + 1, 1)` the width is converted to the
`unsigned int` 1 and the image that comes back has size `(1, 1)`. -/
theorem C1_counterexample_empty_and_wide_image :
    (ITKImageToAfArray intExternals (imageTypeU8 1) (some emptyImage)).bind
        (fun a => AfArrayToITKImage intExternals (imageTypeU8 1) a false) =
      .error (.itkGeneric "Creation of af::array from data failed") ∧
    ∃ out, (ITKImageToAfArray intExternals (imageTypeU8 1) (some wideImage)).bind
        (fun a => AfArrayToITKImage intExternals (imageTypeU8 1) a false) = .ok out ∧
      out.size = [1, 1] ∧ out.size ≠ wideImage.size := by
  refine ⟨rfl, _, rfl, rfl, by decide⟩

/-- C1, amended: for every 2-D image of size `(w, h)` with `1 ≤ w, h < 2 ^ 32` (and
`w * h * c < 2 ^ 32` when the pixel has `c > 1` components), `c` in `{1, 3, 4}`, component
type among `u8`, `s16`, `u16`, `f32`, `f64`, and a pixel container holding its
`c * w * h` components, `AfArrayToITKImage (ITKImageToAfArray I) false` succeeds and
returns the image with index `(0, 0)`, size `(w, h)`, spacing `(1, 1)` and exactly the
pixel container of `I`. -/
theorem C1_roundtrip_image_array_image {α : Type} (X : Externals α) (T : ImageType)
    (img : Image α) (w h c : Nat)
    (hD : T.ImageDimension = 2) (hcomp : T.Components = c) (hc : c = 1 ∨ c = 3 ∨ c = 4)
    (hty : T.ValueType = .u8 ∨ T.ValueType = .s16 ∨ T.ValueType = .u16 ∨
      T.ValueType = .f32 ∨ T.ValueType = .f64)
    (hsize : img.size = [w, h]) (hbuf : img.buffer.length = c * (w * h))
    (hw0 : 0 < w) (hh0 : 0 < h) (hw32 : w < 2 ^ 32) (hh32 : h < 2 ^ 32)
    (hprod : c ≠ 1 → w * h * c < 2 ^ 32) :
    (ITKImageToAfArray X T (some img)).bind (fun a => AfArrayToITKImage X T a false) =
      .ok { index := [0, 0], size := [w, h], spacing := [1, 1], buffer := img.buffer } :=
  roundtrip_image_aux X T img w h c hD hcomp hc (by unfold acceptedType; tauto) hsize hbuf
    hw0 hh0 hw32 hh32 hprod

/-- C1, witness: the RGB image of width 2 and height 1 with pixels `(1, 2, 3)` and
`(4, 5, 6)` comes back unchanged. -/
theorem C1_roundtrip_image_array_image_witness :
    (ITKImageToAfArray intExternals (imageTypeU8 3) (some sampleImage)).bind
        (fun a => AfArrayToITKImage intExternals (imageTypeU8 3) a false) =
      .ok { index := [0, 0], size := [2, 1], spacing := [1, 1], buffer := [1, 2, 3, 4, 5, 6] } :=
  C1_roundtrip_image_array_image intExternals (imageTypeU8 3) sampleImage 2 1 3 rfl rfl
    (by decide) (Or.inl rfl) rfl rfl (by decide) (by decide) (by decide) (by decide)
    (fun _ => by decide)

/-- C2, counterexample: the claim promises that array, image, array returns the extents
of every non-empty array; for the single-channel `u8` array with extents
`(1, 2 ^ 32 + 1, 1, 1)` the image has width `2 ^ 32 + 1`, which `ITKImageToAfArray`
converts to the `unsigned int` 1, and the array that comes back has extents
`(1, 1, 1, 1)`. -/
theorem C2_counterexample_wide_array :
    ∃ arr, (AfArrayToITKImage intExternals (imageTypeU8 1) wideArray false).bind
        (fun img => ITKImageToAfArray intExternals (imageTypeU8 1) (some img)) = .ok arr ∧
      arr.dim = ⟨1, 1, 1, 1⟩ ∧ arr.dim ≠ wideArray.dim := by
  refine ⟨_, rfl, rfl, by decide⟩

/-- C2, amended: for every array with extents `(d0, d1, c, 1)`, `1 ≤ d0, d1 < 2 ^ 32` (and
`d1 * d0 * c < 2 ^ 32` when `c > 1`), `c` in `{1, 3, 4}`, element type `T` among `u8`, `s16`,
`u16`, `f32`, `f64`, `ITKImageToAfArray (AfArrayToITKImage a false)` into the 2-D image type
with `c` components of type `T` succeeds and returns an array with extents
`(d0, d1, c, 1)`, element type `T` and the element of `a` at every position. -/
theorem C2_roundtrip_array_image_array {α : Type} (X : Externals α) (T : ImageType)
    (a : af.array α) (d0 d1 c : Nat)
    (hD : T.ImageDimension = 2) (hcomp : T.Components = c) (hc : c = 1 ∨ c = 3 ∨ c = 4)
    (hty : a.type = .u8 ∨ a.type = .s16 ∨ a.type = .u16 ∨ a.type = .f32 ∨ a.type = .f64)
    (hT : T.ValueType = a.type) (hdim : a.dim = ⟨d0, d1, c, 1⟩)
    (h0 : 0 < d0) (h1 : 0 < d1) (h032 : d0 < 2 ^ 32) (h132 : d1 < 2 ^ 32)
    (hprod : c ≠ 1 → d1 * d0 * c < 2 ^ 32) :
    ∃ arr, (AfArrayToITKImage X T a false).bind (fun img => ITKImageToAfArray X T (some img)) =
        .ok arr ∧ arr.dim = ⟨d0, d1, c, 1⟩ ∧ arr.type = a.type ∧
      ∀ i j k, i < d0 → j < d1 → k < c → arr.get i j k 0 = a.get i j k 0 :=
  roundtrip_array_aux X T a d0 d1 c hD hcomp hc (by unfold acceptedType; tauto) hT hdim
    h0 h1 h032 h132 hprod

/-- C2, witness: the 2 by 3 array with 3 channels comes back with its extents and
elements. -/
theorem C2_roundtrip_array_image_array_witness :
    ∃ arr, (AfArrayToITKImage intExternals (imageTypeU8 3) sampleRGB false).bind
        (fun img => ITKImageToAfArray intExternals (imageTypeU8 3) (some img)) = .ok arr ∧
      arr.dim = ⟨2, 3, 3, 1⟩ ∧ arr.type = sampleRGB.type ∧
      ∀ i j k, i < 2 → j < 3 → k < 3 → arr.get i j k 0 = sampleRGB.get i j k 0 :=
  C2_roundtrip_array_image_array intExternals (imageTypeU8 3) sampleRGB 2 3 3 rfl rfl
    (by decide) (Or.inl rfl) rfl rfl (by decide) (by decide) (by decide) (by decide)
    (fun _ => by decide)

/-- C3: for every array with extents `(d0, d1, c, 1)`, `d0, d1 ≥ 1`, `c` in `{1, 3, 4}` and an
accepted element type, `AfArrayToITKImage a false` into a 2-D image type with `c`
components of type `T` succeeds, the image has size `(d1, d0)` and `c * d1 * d0` stored
components, and the component at flat position `k + c * (x + d1 * y)`, component `k` of
the pixel `(x, y)`, is the element `a(y, x, k)` converted to `T`; the channels of a pixel
keep their order. -/
theorem C3_pixel_mapping_without_transposition {α : Type} (X : Externals α) (T : ImageType)
    (a : af.array α) (d0 d1 c : Nat)
    (hdim : a.dim = ⟨d0, d1, c, 1⟩) (h0 : 0 < d0) (h1 : 0 < d1)
    (hc : c = 1 ∨ c = 3 ∨ c = 4)
    (hty : a.type = .u8 ∨ a.type = .s16 ∨ a.type = .u16 ∨ a.type = .f32 ∨ a.type = .f64)
    (hcomp : T.Components = c) (hD : T.ImageDimension = 2) :
    ∃ img, AfArrayToITKImage X T a false = .ok img ∧ img.size = [d1, d0] ∧
      img.buffer.length = c * (d1 * d0) ∧
      ∀ x y k, x < d1 → y < d0 → k < c →
        img.buffer[k + c * (x + d1 * y)]? = some (castTo X a.type T.ValueType (a.get y x k 0)) := by
  obtain ⟨img, h, _, hsz, _, hlen, hpix⟩ := pixel_map_aux X T a d0 d1 c hdim h0 h1 hc
    (by unfold acceptedType; tauto) hcomp hD
  exact ⟨img, h, hsz, hlen, hpix⟩

/-- C3, witness: the 2 by 3 array with 3 channels, converted to an RGB image. -/
theorem C3_pixel_mapping_without_transposition_witness :
    ∃ img, AfArrayToITKImage intExternals (imageTypeU8 3) sampleRGB false = .ok img ∧
      img.size = [3, 2] ∧ img.buffer.length = 3 * (3 * 2) ∧
      ∀ x y k, x < 3 → y < 2 → k < 3 →
        img.buffer[k + 3 * (x + 3 * y)]? =
          some (castTo intExternals sampleRGB.type (imageTypeU8 3).ValueType
            (sampleRGB.get y x k 0)) :=
  C3_pixel_mapping_without_transposition intExternals (imageTypeU8 3) sampleRGB 2 3 3 rfl
    (by decide) (by decide) (by decide) (Or.inl rfl) rfl rfl

/-- C4: whenever `AfArrayToITKImage` accepts an array with leading extents `(d0, d1)` for
a 2-D image type, the region of the image starts at index `(0, 0)`, the spacing is
`(1, 1)`, and the size is `(d1, d0)` without and `(d0, d1)` with the transpose flag. -/
theorem C4_geometry_of_result {α : Type} (X : Externals α) (T : ImageType) (a : af.array α)
    (tr : Bool) (img : Image α) (hD : T.ImageDimension = 2)
    (h : AfArrayToITKImage X T a tr = .ok img) :
    img.index = [0, 0] ∧ img.spacing = [1, 1] ∧
      img.size = (if tr then [a.dims 0, a.dims 1] else [a.dims 1, a.dims 0]) := by
  obtain ⟨hne, hty, hch⟩ := (AfArrayToITKImage_ok_iff X T a tr).1 ⟨img, h⟩
  obtain ⟨img', h', hidx, hsp, hsz⟩ := AfArrayToITKImage_ok X T a tr hne hty hch
  rw [h] at h'
  cases h'
  rw [hD] at hidx hsp hsz
  rw [size_two] at hsz
  refine ⟨by simpa using hidx, by simpa using hsp, ?_⟩
  rw [hsz]
  cases tr <;> rfl

/-- C4, witness: the 2 by 3 array with 3 channels gives a 3 by 2 image. -/
theorem C4_geometry_of_result_witness :
    ∃ img, AfArrayToITKImage intExternals (imageTypeU8 3) sampleRGB false = .ok img ∧
      img.index = [0, 0] ∧ img.spacing = [1, 1] ∧ img.size = [3, 2] :=
  ⟨_, rfl, C4_geometry_of_result intExternals (imageTypeU8 3) sampleRGB false _ rfl rfl⟩

/-- C5: for every array (accepted or not), `AfArrayToITKImage a true` is the same result,
region and pixel container included, as `AfArrayToITKImage` without the flag applied to
the array with its first two axes exchanged; for the 2 by 2 single-channel buffer
`[1, 2, 3, 4]` both give the image with pixel container `[1, 2, 3, 4]`, while the
conversion without any transposition gives `[1, 3, 2, 4]`. -/
theorem C5_transpose_flag_is_transposition :
    (∀ (α : Type) (X : Externals α) (T : ImageType) (a : af.array α),
      AfArrayToITKImage X T a true = AfArrayToITKImage X T (af.transpose a) false ∧
      (∀ i j k l, (af.transpose a).get i j k l = a.get j i k l)) ∧
    AfArrayToITKImage intExternals (imageTypeU8 1) sample2x2 true =
      .ok { index := [0, 0], size := [2, 2], spacing := [1, 1], buffer := [1, 2, 3, 4] } ∧
    AfArrayToITKImage intExternals (imageTypeU8 1) (af.transpose sample2x2) false =
      .ok { index := [0, 0], size := [2, 2], spacing := [1, 1], buffer := [1, 2, 3, 4] } ∧
    AfArrayToITKImage intExternals (imageTypeU8 1) sample2x2 false =
      .ok { index := [0, 0], size := [2, 2], spacing := [1, 1], buffer := [1, 3, 2, 4] } :=
  ⟨fun _ X T a => ⟨transpose_flag_aux X T a, fun _ _ _ _ => rfl⟩, rfl, rfl, rfl⟩

/-- C6, counterexample: the claim gives the returned array the extents `(h, w, c)` for
every accepted image; the 2-D scalar image of size `(2 ^ 32 + 1, 1)` is accepted, its
width is converted to the `unsigned int` 1, and the returned array has extents
`(1, 1, 1, 1)` instead of `(1, 2 ^ 32 + 1, 1, 1)`. -/
theorem C6_counterexample_wide_image :
    ∃ arr, ITKImageToAfArray intExternals (imageTypeU8 1) (some wideImage) = .ok arr ∧
      arr.dim = ⟨1, 1, 1, 1⟩ ∧ arr.dim ≠ ⟨1, 4294967297, 1, 1⟩ := by
  refine ⟨_, rfl, rfl, by decide⟩

/-- C6, amended: for every 2-D image of size `(w, h)` with `1 ≤ w, h < 2 ^ 32` (and
`w * h * c < 2 ^ 32` when `c > 1`), whose pixels have `c` components, `c` in `{1, 3, 4}`, of
component type `T`, and whose pixel container holds the `c * w * h` components,
`ITKImageToAfArray` returns an array with extents `(h, w, c, 1)` and element type `T` whose
element at `(y, x, k)` is component `k` of the pixel at `(x, y)`. -/
theorem C6_layout_of_ITKImageToAfArray {α : Type} (X : Externals α) (T : ImageType)
    (img : Image α) (w h c : Nat)
    (hD : T.ImageDimension = 2) (hcomp : T.Components = c) (hc : c = 1 ∨ c = 3 ∨ c = 4)
    (hsize : img.size = [w, h]) (hbuf : img.buffer.length = c * (w * h))
    (hw0 : 0 < w) (hh0 : 0 < h) (hw32 : w < 2 ^ 32) (hh32 : h < 2 ^ 32)
    (hprod : c ≠ 1 → w * h * c < 2 ^ 32) :
    ∃ arr, ITKImageToAfArray X T (some img) = .ok arr ∧ arr.dim = ⟨h, w, c, 1⟩ ∧
      arr.type = T.ValueType ∧
      ∀ x y k, x < w → y < h → k < c →
        img.component c w x y k = some (arr.get y x k 0) := by
  obtain ⟨arr, harr, hdim, htype, hget⟩ := layout_aux X T img w h c
    (not_IsA2DImage_of_dim_two X T img hD) (by simp [Image.sizeAt, hsize])
    (by simp [Image.sizeAt, hsize]) hcomp hc hw0 hh0 hw32 hh32 hprod
  refine ⟨arr, harr, hdim, htype, ?_⟩
  intro x y k hx hy hk
  have hin : k + c * (x + w * y) < img.buffer.length := by
    rw [hbuf]
    exact lt_mul_of_digits c (w * h) k _ hk (lt_mul_of_digits w h x y hx hy)
  rw [hget x y k hx hy hk, Image.component, List.getD_eq_getElem?_getD,
    List.getElem?_eq_getElem hin]
  rfl

/-- C6, witness: the RGB image of width 2 and height 1. -/
theorem C6_layout_of_ITKImageToAfArray_witness :
    ∃ arr, ITKImageToAfArray intExternals (imageTypeU8 3) (some sampleImage) = .ok arr ∧
      arr.dim = ⟨1, 2, 3, 1⟩ ∧ arr.type = .u8 ∧
      ∀ x y k, x < 2 → y < 1 → k < 3 →
        sampleImage.component 3 2 x y k = some (arr.get y x k 0) :=
  C6_layout_of_ITKImageToAfArray intExternals (imageTypeU8 3) sampleImage 2 1 3 rfl rfl
    (by decide) rfl rfl (by decide) (by decide) (by decide) (by decide) (fun _ => by decide)

/-- C7, counterexample: the claim promises an error for every non-empty array whose
channel extent is none of 1, 3, 4; the non-empty `u8` array with extents
`(1, 1, 2 ^ 32 + 1, 1)` is accepted and gives a 1 by 1 image, because the check is made on
the extent converted to `unsigned int`, which is 1. -/
theorem C7_counterexample_wrapped_channel_extent :
    deepArray.isempty = false ∧ deepArray.dims 2 = 4294967297 ∧
    ∃ img, AfArrayToITKImage intExternals (imageTypeU8 1) deepArray false = .ok img ∧
      img.size = [1, 1] := by
  refine ⟨rfl, rfl, _, rfl, rfl⟩

/-- C7, amended: whatever the transpose flag, `AfArrayToITKImage` reports an error and
returns no image for every empty array, for every non-empty array whose element type
is outside `u8`, `s16`, `u16`, `s32`, `f32`, `f64`, `b8`, and for every non-empty array whose
channel extent is below `2 ^ 32` and none of 1, 3, 4. -/
theorem C7_rejected_arrays {α : Type} (X : Externals α) (T : ImageType)
    (a : af.array α) (tr : Bool)
    (h : a.isempty = true ∨
      (a.type ≠ .u8 ∧ a.type ≠ .s16 ∧ a.type ≠ .u16 ∧ a.type ≠ .s32 ∧ a.type ≠ .f32 ∧
        a.type ≠ .f64 ∧ a.type ≠ .b8) ∨
      (a.dims 2 < 2 ^ 32 ∧ a.dims 2 ≠ 1 ∧ a.dims 2 ≠ 3 ∧ a.dims 2 ≠ 4)) :
    ∃ e, AfArrayToITKImage X T a tr = .error e := by
  cases hr : AfArrayToITKImage X T a tr with
  | error e => exact ⟨e, rfl⟩
  | ok img =>
    obtain ⟨hne, hty, hch⟩ := (AfArrayToITKImage_ok_iff X T a tr).1 ⟨img, hr⟩
    rcases h with h | h | h
    · simp [af.array.isempty] at h; exact absurd h hne
    · unfold acceptedType at hty
      tauto
    · rw [Nat.mod_eq_of_lt h.1] at hch
      omega

/-- C7, witness: a 1 by 1 array with 2 channels is rejected. -/
theorem C7_rejected_arrays_witness :
    ∃ e, AfArrayToITKImage intExternals (imageTypeU8 1)
      { dim := ⟨1, 1, 2, 1⟩, type := .u8, get := fun _ _ _ _ => 0 } true = .error e :=
  C7_rejected_arrays intExternals (imageTypeU8 1) _ true (Or.inr (Or.inr (by decide)))

/-- C8, counterexample: the claim lets `AfArrayToITKImage` accept signed 32-bit and
boolean arrays; a 1 by 1 single-channel array of type `s32`, and one of type `b8`, are
rejected with "Unsupported type for pixel component". -/
theorem C8_counterexample_s32_and_b8 :
    (unitArray .s32).isempty = false ∧ (unitArray .s32).dims 2 = 1 ∧
    AfArrayToITKImage intExternals (imageTypeU8 1) (unitArray .s32) false =
        .error (.itkGeneric "Unsupported type for pixel component") ∧
    AfArrayToITKImage intExternals (imageTypeU8 1) (unitArray .b8) false =
        .error (.itkGeneric "Unsupported type for pixel component") :=
  ⟨rfl, rfl, rfl, rfl⟩

/-- C8, amended: for every non-empty array whose channel extent is 1, 3 or 4 and whose
element type is one of `u8`, `s16`, `u16`, `f32`, `f64`, and for either value of the
transpose flag, `AfArrayToITKImage` into a 2-D image type with 1, 3 or 4 components
returns an image, hence reports no unsupported-element-type error; the region of the
image starts at `(0, 0)` and has the first two extents of the array as its size. -/
theorem C8_accepts_supported_types {α : Type} (X : Externals α) (T : ImageType)
    (a : af.array α) (tr : Bool) (hD : T.ImageDimension = 2)
    (_hT : T.Components = 1 ∨ T.Components = 3 ∨ T.Components = 4)
    (hne : a.isempty = false)
    (hch : a.dims 2 = 1 ∨ a.dims 2 = 3 ∨ a.dims 2 = 4)
    (hty : a.type = .u8 ∨ a.type = .s16 ∨ a.type = .u16 ∨ a.type = .f32 ∨ a.type = .f64) :
    ∃ img, AfArrayToITKImage X T a tr = .ok img ∧ img.index = [0, 0] ∧
      img.size = (if tr then [a.dims 0, a.dims 1] else [a.dims 1, a.dims 0]) := by
  have hne' : a.elements ≠ 0 := by simpa [af.array.isempty] using hne
  have hty' : acceptedType a.type := by unfold acceptedType; tauto
  have hch' : a.dims 2 % 2 ^ 32 = 1 ∨ a.dims 2 % 2 ^ 32 = 3 ∨ a.dims 2 % 2 ^ 32 = 4 := by
    rcases hch with h | h | h <;> rw [h] <;> decide
  obtain ⟨img, h, hidx, _, hsz⟩ := AfArrayToITKImage_ok X T a tr hne' hty' hch'
  rw [hD] at hidx hsz
  rw [size_two] at hsz
  refine ⟨img, h, by simpa using hidx, ?_⟩
  rw [hsz]
  cases tr <;> rfl

/-- C8, witness: the 1 by 1 single-channel array of type `f64` and a 2-D scalar image
type. -/
theorem C8_accepts_supported_types_witness :
    (imageTypeU8 1).ImageDimension = 2 ∧
    ∃ img, AfArrayToITKImage intExternals (imageTypeU8 1) (unitArray .f64) true = .ok img ∧
      img.index = [0, 0] ∧ img.size = [1, 1] :=
  ⟨rfl, C8_accepts_supported_types intExternals (imageTypeU8 1) (unitArray .f64) true rfl
    (Or.inl rfl) rfl (Or.inl rfl) (by decide)⟩

/-- C9: provided the call of `af_create_array` made for the image reports `AF_SUCCESS`,
`ITKImageToAfArray` reports an error if and only if the image pointer is null, or some
axis from the third on has an extent other than 1, or the component count of the pixel
type is none of 1, 3, 4; in every other case it returns an array. -/
theorem C9_ITKImageToAfArray_error_conditions {α : Type} (X : Externals α) (T : ImageType)
    (inp : Option (Image α))
    (hcreate : ∀ img, inp = some img → (createFromImage X T img).1 = .AF_SUCCESS) :
    ((∃ e, ITKImageToAfArray X T inp = .error e) ↔
      (inp = none ∨
       (∃ img dim, inp = some img ∧ 2 ≤ dim ∧ dim < T.ImageDimension ∧ img.sizeAt X dim ≠ 1) ∨
       (T.Components ≠ 1 ∧ T.Components ≠ 3 ∧ T.Components ≠ 4))) ∧
    (¬ (inp = none ∨
       (∃ img dim, inp = some img ∧ 2 ≤ dim ∧ dim < T.ImageDimension ∧ img.sizeAt X dim ≠ 1) ∨
       (T.Components ≠ 1 ∧ T.Components ≠ 3 ∧ T.Components ≠ 4)) →
      ∃ arr, ITKImageToAfArray X T inp = .ok arr) := by
  obtain ⟨hiff, hor⟩ := ITKImageToAfArray_error_iff_aux X T inp hcreate
  refine ⟨hiff, fun hn => ?_⟩
  rcases hor with he | hok
  · exact absurd (hiff.1 he) hn
  · exact hok

/-- C9, witness: the conditions at the RGB image of width 2 and height 1, for which the
array creation succeeds. -/
theorem C9_ITKImageToAfArray_error_conditions_witness :
    (createFromImage intExternals (imageTypeU8 3) sampleImage).1 = .AF_SUCCESS ∧
    (((∃ e, ITKImageToAfArray intExternals (imageTypeU8 3) (some sampleImage) = .error e) ↔
      (some sampleImage = none ∨
       (∃ img dim, some sampleImage = some img ∧ 2 ≤ dim ∧ dim < (imageTypeU8 3).ImageDimension ∧
          img.sizeAt intExternals dim ≠ 1) ∨
       ((imageTypeU8 3).Components ≠ 1 ∧ (imageTypeU8 3).Components ≠ 3 ∧
          (imageTypeU8 3).Components ≠ 4))) ∧
    (¬ (some sampleImage = none ∨
       (∃ img dim, some sampleImage = some img ∧ 2 ≤ dim ∧ dim < (imageTypeU8 3).ImageDimension ∧
          img.sizeAt intExternals dim ≠ 1) ∨
       ((imageTypeU8 3).Components ≠ 1 ∧ (imageTypeU8 3).Components ≠ 3 ∧
          (imageTypeU8 3).Components ≠ 4)) →
      ∃ arr, ITKImageToAfArray intExternals (imageTypeU8 3) (some sampleImage) = .ok arr)) :=
  ⟨rfl, C9_ITKImageToAfArray_error_conditions intExternals (imageTypeU8 3) (some sampleImage)
    (fun img h => by cases h; rfl)⟩

/-- C10: for either value of the transpose flag, `CVMatToArray` of an empty matrix and of
an empty list of matrices return the empty array without error, `ArrayToCVMat` of an
empty array returns the empty matrix without error, and `AfArrayToITKImage` of an empty
array reports "Input is ITK_NULLPTR" whatever the element type and extents of the
array and whatever the image type. -/
theorem C10_empty_inputs {α : Type} (X : Externals α) (tr : Bool) :
    (∀ m : Mat, m.empty = true →
      CVMatToArray X m tr = .ok (af.array.empty X)) ∧
    CVMatToArray_vector X [] tr = .ok (af.array.empty X) ∧
    (af.array.empty X).isempty = true ∧
    (∀ a : af.array α, a.isempty = true → ArrayToCVMat X a tr = .ok Mat.default) ∧
    Mat.default.empty = true ∧
    (∀ (T : ImageType) (a : af.array α), a.isempty = true →
      AfArrayToITKImage X T a tr = .error (.itkGeneric "Input is ITK_NULLPTR")) := by
  refine ⟨?_, rfl, rfl, ?_, rfl, ?_⟩
  · intro m hm
    simp [CVMatToArray, hm]
  · intro a ha
    simp [ArrayToCVMat, ha]
    rfl
  · intro T a ha
    simp [AfArrayToITKImage, ha]

/-- C10, witness: a matrix with 0 rows and 3 columns, the empty array, and an array with
extents `(2, 0, 3, 1)` of type `s32`. -/
theorem C10_empty_inputs_witness :
    CVMatToArray intExternals { rows := 0, cols := 3, type := 0, step := 3, data := [] } true =
      .ok (af.array.empty intExternals) ∧
    ArrayToCVMat intExternals (af.array.empty intExternals) false = .ok Mat.default ∧
    AfArrayToITKImage intExternals (imageTypeU8 1)
        { dim := ⟨2, 0, 3, 1⟩, type := .s32, get := fun _ _ _ _ => 0 } false =
      .error (.itkGeneric "Input is ITK_NULLPTR") :=
  ⟨(C10_empty_inputs intExternals true).1 _ rfl,
   (C10_empty_inputs intExternals false).2.2.2.1 _ rfl,
   (C10_empty_inputs intExternals false).2.2.2.2.2 _ _ rfl⟩

/-! ### The OpenCV side: closed form of `ArrayToCVMat` -/


theorem bmod_small (n : Nat) (h : n < 2 ^ 31) : Int.bmod (n : Int) (2 ^ 32) = (n : Int) := by
  unfold Int.bmod
  have h' : (n : Int) < 2147483648 := by exact_mod_cast (by simpa using h : n < 2147483648)
  have hn : (0 : Int) ≤ n := Int.natCast_nonneg n
  norm_num
  omega

theorem cvtype_small (t : af_dtype) (c : Nat) (hc : 1 ≤ c ∧ c ≤ 3) :
    (GetCVTypeFromAfDtype t c % 4096).toNat = mappedDepth t + 8 * (c - 1) := by
  obtain ⟨h1, h3⟩ := hc
  interval_cases c <;> cases t <;> decide

theorem mappedDepth_le (t : af_dtype) : mappedDepth t ≤ 6 := by
  cases t <;> decide

theorem flat_reencode (n0 n1 n2 p : Nat) :
    p % n0 + n0 * (p / n0 % n1 + n1 * (p / (n0 * n1) % n2 + n2 * (p / (n0 * n1 * n2)))) = p := by
  rw [← Nat.div_div_eq_div_mul, ← Nat.div_div_eq_div_mul, ← Nat.div_div_eq_div_mul,
    Nat.mod_add_div, Nat.mod_add_div, Nat.mod_add_div]

theorem moddims_host {α : Type} (a b : af.array α) (dims : af.dim4)
    (h : af.moddims a dims = .ok b) : b.dim = dims ∧ b.type = a.type ∧ b.host = a.host := by
  unfold af.moddims at h
  split_ifs at h with he
  cases h
  refine ⟨rfl, rfl, ?_⟩
  simp only [af.array.host, af.array.elements, af.array.flat]
  rw [← he]
  apply List.map_congr_left
  intro p _
  have := flat_reencode dims.d0 dims.d1 dims.d2 p
  simp only [af.array.flat] at this ⊢
  rw [this]

theorem ArrayToCVMat_nonempty {α : Type} (X : Externals α) (a : af.array α) (tr : Bool)
    (h : a.isempty = false)
    (h2 : ¬ a.dims 2 > 3) :
    ArrayToCVMat X a tr =
        (Mat.create X (Int.bmod (if tr then af.transpose a else a).dim.d0 (2 ^ 32))
            (Int.bmod (if tr then af.transpose a else a).dim.d1 (2 ^ 32))
            (GetCVTypeFromAfDtype (if tr then af.transpose a else a).type
              (if tr then af.transpose a else a).dim.d2)).bind (fun output =>
          (af.moddims
              (if (if tr then af.transpose a else a).dim.d2 > 1 then
                af.reorder (if tr then af.transpose a else a) 2 1 0 3
              else af.reorder (if tr then af.transpose a else a) 1 0 2 3)
              ⟨(if tr then af.transpose a else a).dim.d0 * (if tr then af.transpose a else a).dim.d2,
                (if tr then af.transpose a else a).dim.d1, 1, 1⟩).bind (fun packed =>
            .ok { output with
              data := packed.host.flatMap (X.toBytes packed.type) ++
                output.data.drop (packed.host.flatMap (X.toBytes packed.type)).length })) := by
  unfold ArrayToCVMat
  simp only [h, h2, if_false, Bool.false_eq_true]
  cases hM : Mat.create X (Int.bmod (if tr then af.transpose a else a).dim.d0 (2 ^ 32))
            (Int.bmod (if tr then af.transpose a else a).dim.d1 (2 ^ 32))
            (GetCVTypeFromAfDtype (if tr then af.transpose a else a).type
              (if tr then af.transpose a else a).dim.d2) with
  | error e => rfl
  | ok out =>
    cases hP : af.moddims
              (if (if tr then af.transpose a else a).dim.d2 > 1 then
                af.reorder (if tr then af.transpose a else a) 2 1 0 3
              else af.reorder (if tr then af.transpose a else a) 1 0 2 3)
              ⟨(if tr then af.transpose a else a).dim.d0 * (if tr then af.transpose a else a).dim.d2,
                (if tr then af.transpose a else a).dim.d1, 1, 1⟩ with
    | error e =>
      simp only [bind, Except.bind, pure, Except.pure, hP]
    | ok p =>
      simp only [bind, Except.bind, pure, Except.pure, hP]

theorem Mat_create_small {α : Type} (X : Externals α) (t : af_dtype) (d0 d1 c : Nat)
    (h0' : d0 < 2 ^ 31) (h1' : d1 < 2 ^ 31) (hc : 1 ≤ c ∧ c ≤ 3) :
    Mat.create X (Int.bmod (d0 : Int) (2 ^ 32)) (Int.bmod (d1 : Int) (2 ^ 32))
      (GetCVTypeFromAfDtype t c) = .ok
        { rows := d0, cols := d1, type := mappedDepth t + 8 * (c - 1),
          step := d1 * (c * elemSize1 (mappedDepth t)),
          data := List.replicate (d0 * d1 * (c * elemSize1 (mappedDepth t))) X.indetByte } := by
  have hty := cvtype_small t c hc
  have hdep : (mappedDepth t + 8 * (c - 1)) % 8 = mappedDepth t := by
    have := mappedDepth_le t
    omega
  have hch : (mappedDepth t + 8 * (c - 1)) / 8 % 512 + 1 = c := by
    have := mappedDepth_le t
    omega
  rw [bmod_small d0 h0', bmod_small d1 h1']
  unfold Mat.create
  rw [if_neg (by omega)]
  simp only [hty, hdep, hch, Int.toNat_ofNat]

theorem interleaved_host {α : Type} (a : af.array α) (d0 d1 c : Nat)
    (hdim : a.dim = ⟨d0, d1, c, 1⟩) (hc : 1 ≤ c) :
    (if c > 1 then af.reorder a 2 1 0 3 else af.reorder a 1 0 2 3).host =
      (List.range (c * (d1 * d0))).map (fun e => a.get (e / c / d1) (e / c % d1) (e % c) 0) := by
  obtain ⟨dim, t, g⟩ := a
  simp only at hdim
  subst hdim
  by_cases h1 : c > 1
  · rw [if_pos h1]
    have hr : af.reorder ⟨⟨d0, d1, c, 1⟩, t, g⟩ 2 1 0 3 =
        ⟨⟨c, d1, d0, 1⟩, t, fun i0 i1 i2 i3 => g i2 i1 i0 i3⟩ := by
      simp [af.reorder, af.dim4.get]
    rw [hr]
    have hel : (⟨⟨c, d1, d0, 1⟩, t, fun i0 i1 i2 i3 => g i2 i1 i0 i3⟩ : af.array α).elements =
        c * (d1 * d0) := by
      simp [af.array.elements, af.dim4.elements]; ring
    simp only [af.array.host, hel]
    apply List.map_congr_left
    intro e he
    rw [List.mem_range] at he
    obtain ⟨hk, hq, hr', hpe⟩ := digits_of_lt c d1 d0 e he
    conv_lhs => rw [hpe]
    rw [flat_decode _ c d1 d0 1 t _ _ _ hk hq hr']
  · rw [if_neg h1]
    have hc1 : c = 1 := by omega
    subst hc1
    have hr : af.reorder ⟨⟨d0, d1, 1, 1⟩, t, g⟩ 1 0 2 3 =
        ⟨⟨d1, d0, 1, 1⟩, t, fun i0 i1 i2 i3 => g i1 i0 i2 i3⟩ := by
      simp [af.reorder, af.dim4.get]
    rw [hr]
    have hel : (⟨⟨d1, d0, 1, 1⟩, t, fun i0 i1 i2 i3 => g i1 i0 i2 i3⟩ : af.array α).elements =
        1 * (d1 * d0) := by
      simp [af.array.elements, af.dim4.elements]
    simp only [af.array.host, hel]
    apply List.map_congr_left
    intro e he
    rw [List.mem_range] at he
    obtain ⟨hk, hq, hr', hpe⟩ := digits_of_lt 1 d1 d0 e he
    have hpe' : e = e / 1 % d1 + d1 * (e / 1 / d1 + d0 * 0) := by
      have h0 : e % 1 = 0 := Nat.mod_one e
      rw [h0] at hpe
      simp only [Nat.mul_zero, Nat.add_zero]
      omega
    conv_lhs => rw [hpe']
    rw [flat_decode _ d1 d0 1 1 t _ _ 0 hq hr' (by omega)]
    simp [Nat.mod_one]

theorem ArrayToCVMat_closed {α : Type} (X : Externals α) (a : af.array α) (d0 d1 c : Nat)
    (hdim : a.dim = ⟨d0, d1, c, 1⟩) (h0 : 0 < d0) (h1 : 0 < d1)
    (h0' : d0 < 2 ^ 31) (h1' : d1 < 2 ^ 31) (hc : 1 ≤ c ∧ c ≤ 3) :
    ArrayToCVMat X a false = .ok
      { rows := d0, cols := d1, type := mappedDepth a.type + 8 * (c - 1),
        step := d1 * (c * elemSize1 (mappedDepth a.type)),
        data :=
          ((List.range (c * (d1 * d0))).map
              (fun e => a.get (e / c / d1) (e / c % d1) (e % c) 0)).flatMap (X.toBytes a.type) ++
            (List.replicate (d0 * d1 * (c * elemSize1 (mappedDepth a.type))) X.indetByte).drop
              (((List.range (c * (d1 * d0))).map
                (fun e => a.get (e / c / d1) (e / c % d1) (e % c) 0)).flatMap
                  (X.toBytes a.type)).length } := by
  have hne : a.isempty = false := by
    have : d0 * d1 * c ≠ 0 := by
      have := hc.1
      positivity
    simp [af.array.isempty, af.array.elements, af.dim4.elements, hdim, this]
  have h2 : ¬ a.dims 2 > 3 := by simp [af.array.dims, af.dim4.get, hdim]; omega
  have hmd : ∃ b, af.moddims (if c > 1 then af.reorder a 2 1 0 3 else af.reorder a 1 0 2 3)
      ⟨d0 * c, d1, 1, 1⟩ = .ok b := by
    unfold af.moddims
    rw [if_pos]
    · exact ⟨_, rfl⟩
    · split_ifs <;>
        simp [af.array.elements, af.dim4.elements, af.reorder, af.dim4.get, hdim] <;> ring
  obtain ⟨b, hb⟩ := hmd
  obtain ⟨_, hbt, hbh⟩ := moddims_host _ _ _ hb
  have hbt' : b.type = a.type := by
    rw [hbt]; split_ifs <;> rfl
  rw [interleaved_host a d0 d1 c hdim hc.1] at hbh
  have hcreate := Mat_create_small X a.type d0 d1 c h0' h1' hc
  rw [ArrayToCVMat_nonempty X a false hne h2]
  simp only [Bool.false_eq_true, if_false, hdim]
  rw [hcreate, hb]
  simp only [Except.bind, hbh, hbt']

theorem flatMap_length_uniform {β γ : Type} (l : List β) (f : β → List γ) (n : Nat)
    (h : ∀ v ∈ l, (f v).length = n) : (l.flatMap f).length = l.length * n := by
  induction l with
  | nil => simp
  | cons a l ih =>
    rw [List.flatMap_cons, List.length_append, h a (List.mem_cons_self _ _),
      ih (fun v hv => h v (List.mem_cons_of_mem _ hv)), List.length_cons]
    ring

theorem flatMap_chunk {β γ : Type} (l : List β) (f : β → List γ) (n : Nat)
    (h : ∀ v ∈ l, (f v).length = n) (rest : List γ) (e : Nat) (v : β) (he : l[e]? = some v) :
    ((l.flatMap f ++ rest).drop (e * n)).take n = f v := by
  induction l generalizing e with
  | nil => simp at he
  | cons a l ih =>
    have ha := h a (List.mem_cons_self _ _)
    rw [List.flatMap_cons, List.append_assoc]
    cases e with
    | zero =>
      simp only [List.getElem?_cons_zero, Option.some.injEq] at he
      subst he
      rw [Nat.zero_mul, List.drop_zero, ← ha, List.take_left']
      rfl
    | succ e =>
      simp only [List.getElem?_cons_succ] at he
      have : (e + 1) * n = (f a).length + e * n := by rw [ha]; ring
      rw [this, List.drop_append]
      exact ih (fun v hv => h v (List.mem_cons_of_mem _ hv)) e he

theorem elemSize1_mappedDepth (t : af_dtype)
    (ht : t = .u8 ∨ t = .b8 ∨ t = .u16 ∨ t = .s16 ∨ t = .s32 ∨ t = .f32 ∨ t = .f64 ∨ t = .u32) :
    elemSize1 (mappedDepth t) = af.sizeOfDtype t := by
  rcases ht with rfl | rfl | rfl | rfl | rfl | rfl | rfl | rfl <;> rfl

theorem ArrayToCVMat_empty {α : Type} (X : Externals α) (a : af.array α) (tr : Bool)
    (h : a.isempty = true) : ArrayToCVMat X a tr = .ok Mat.default := by
  unfold ArrayToCVMat
  simp only [h, if_true]; rfl

theorem ArrayToCVMat_many_channels {α : Type} (X : Externals α) (a : af.array α) (tr : Bool)
    (h : a.isempty = false) (h2 : a.dims 2 > 3) :
    ArrayToCVMat X a tr =
      .error (.runtime_error "OpenCV Images doesn't support more than 3 channels") := by
  unfold ArrayToCVMat
  simp only [h, h2, if_true, if_false, Bool.false_eq_true]; rfl

theorem ArrayToCVMat_transpose_flag {α : Type} (X : Externals α) (a : af.array α) :
    ArrayToCVMat X a true = ArrayToCVMat X (af.transpose a) false := by
  have hel : (af.transpose a).isempty = a.isempty := by
    simp only [af.transpose, af.array.isempty, af.array.elements, af.dim4.elements]
    rw [Nat.mul_comm a.dim.d1 a.dim.d0]
  have hd2 : (af.transpose a).dims 2 = a.dims 2 := rfl
  cases he : a.isempty with
  | true => rw [ArrayToCVMat_empty X a true he, ArrayToCVMat_empty X _ false (by rw [hel, he])]
  | false =>
    by_cases h2 : a.dims 2 > 3
    · rw [ArrayToCVMat_many_channels X a true he h2,
        ArrayToCVMat_many_channels X _ false (by rw [hel, he]) (by rw [hd2]; exact h2)]
    · rw [ArrayToCVMat_nonempty X a true he h2,
        ArrayToCVMat_nonempty X _ false (by rw [hel, he]) (by rw [hd2]; exact h2)]
      rfl

theorem ArrayToCVMat_layout_aux {α : Type} (X : Externals α) (a : af.array α) (d0 d1 c : Nat)
    (hdim : a.dim = ⟨d0, d1, c, 1⟩) (h0 : 0 < d0) (h1 : 0 < d1)
    (h0' : d0 < 2 ^ 31) (h1' : d1 < 2 ^ 31) (hc : 1 ≤ c ∧ c ≤ 3)
    (hbytes : ∀ r q k, r < d0 → q < d1 → k < c →
      (X.toBytes a.type (a.get r q k 0)).length = elemSize1 (mappedDepth a.type)) :
    ∃ m, ArrayToCVMat X a false = .ok m ∧ m.rows = d0 ∧ m.cols = d1 ∧
      m.type = mappedDepth a.type + 8 * (c - 1) ∧ m.channels = c ∧
      m.depth = mappedDepth a.type ∧
      m.step = d1 * (c * elemSize1 (mappedDepth a.type)) ∧
      m.data.length = d0 * d1 * (c * elemSize1 (mappedDepth a.type)) ∧
      m.data = ((List.range (c * (d1 * d0))).map
          (fun e => a.get (e / c / d1) (e / c % d1) (e % c) 0)).flatMap (X.toBytes a.type) ∧
      ∀ r q k, r < d0 → q < d1 → k < c →
        m.channelBytes r q k = X.toBytes a.type (a.get r q k 0) := by
  have hdep : (mappedDepth a.type + 8 * (c - 1)) % 8 = mappedDepth a.type := by
    have := mappedDepth_le a.type
    omega
  have hch : (mappedDepth a.type + 8 * (c - 1)) / 8 % 512 + 1 = c := by
    have := mappedDepth_le a.type
    omega
  have hall : ∀ v ∈ (List.range (c * (d1 * d0))).map
      (fun e => a.get (e / c / d1) (e / c % d1) (e % c) 0),
      (X.toBytes a.type v).length = elemSize1 (mappedDepth a.type) := by
    intro v hv
    rw [List.mem_map] at hv
    obtain ⟨e, he, rfl⟩ := hv
    rw [List.mem_range] at he
    obtain ⟨hk, hq, hr, _⟩ := digits_of_lt c d1 d0 e he
    exact hbytes _ _ _ hr hq hk
  have hlen : (((List.range (c * (d1 * d0))).map
      (fun e => a.get (e / c / d1) (e / c % d1) (e % c) 0)).flatMap (X.toBytes a.type)).length =
      d0 * d1 * (c * elemSize1 (mappedDepth a.type)) := by
    rw [flatMap_length_uniform _ _ _ hall, List.length_map, List.length_range]
    ring
  have hdrop : (List.replicate (d0 * d1 * (c * elemSize1 (mappedDepth a.type))) X.indetByte).drop
      (((List.range (c * (d1 * d0))).map
        (fun e => a.get (e / c / d1) (e / c % d1) (e % c) 0)).flatMap (X.toBytes a.type)).length
      = [] := by
    rw [hlen]
    apply List.drop_eq_nil_of_le
    simp
  refine ⟨_, ArrayToCVMat_closed X a d0 d1 c hdim h0 h1 h0' h1' hc, rfl, rfl, rfl, hch, hdep, rfl,
    ?_, ?_, ?_⟩
  · simp only [hdrop, List.append_nil]
    exact hlen
  · simp only [hdrop, List.append_nil]
  · intro r q k hr hq hk
    simp only [Mat.channelBytes, Mat.depth, Mat.channels, hdep, hch]
    have hoff : r * (d1 * (c * elemSize1 (mappedDepth a.type))) +
        (q * c + k) * elemSize1 (mappedDepth a.type) =
        (k + c * (q + d1 * r)) * elemSize1 (mappedDepth a.type) := by ring
    rw [hoff]
    have hlt : k + c * (q + d1 * r) < c * (d1 * d0) :=
      lt_mul_of_digits c (d1 * d0) k _ hk (lt_mul_of_digits d1 d0 q r hq hr)
    apply flatMap_chunk _ _ _ hall
    rw [List.getElem?_map, List.getElem?_range hlt]
    simp only [Option.map_some']
    have e0 : (k + c * (q + d1 * r)) % c = k := decode0 c k _ hk
    have e1 : (k + c * (q + d1 * r)) / c = q + d1 * r := decode1 c k _ hk
    rw [e0, e1, decode0 d1 q r hq, decode1 d1 q r hq]

/-! ### The OpenCV side: closed form of `Convert` for matrices of one byte per channel -/

theorem Convert_eq {α : Type} (X : Externals α) (m : Mat) (tr : Bool) :
    Convert X m tr =
      (af.array.ofHost X ⟨m.step, m.rows, 1, 1⟩ (m.data.map X.ofByte) .u8).bind (fun interleaved =>
        (af.constant X ⟨m.cols, m.rows, m.channels, 1⟩ (GetAfDtypeFromCVType m.depth)).bind
          (fun sliced =>
            ((List.range m.channels).foldlM (fun (s : af.array α) c =>
                (interleaved.rows c (m.step - 1) m.channels).bind (fun chn =>
                  s.assignSlice X c chn)) sliced).bind (fun sliced =>
              .ok (if tr then af.transpose sliced else sliced)))) := by
  rfl

theorem ofHost_ok {α : Type} (X : Externals α) (d0 d1 : Nat) (h0 : 0 < d0) (h1 : 0 < d1)
    (data : List α) (t : af_dtype) :
    af.array.ofHost X ⟨d0, d1, 1, 1⟩ data t =
      .ok ⟨⟨d0, d1, 1, 1⟩, t, fun i j k l => data.getD (i + d0 * (j + d1 * (k + 1 * l))) X.indet⟩ := by
  have hv : af.verifyDims 4 ⟨d0, d1, 1, 1⟩ = true := by
    simp [af.verifyDims, List.range_succ, af.dim4.get]
    omega
  simp only [af.array.ofHost, af.af_create_array, hv, if_true]
  rfl

theorem constant_ok {α : Type} (X : Externals α) (d : af.dim4) (t : af_dtype)
    (hne : d.elements ≠ 0) :
    af.constant X d t = .ok ⟨d, t, fun _ _ _ _ => X.zero⟩ := by
  simp only [af.constant, verifyDims_ndims d hne, if_true]

theorem seq_count (W ch n : Nat) (hW : 0 < W) (hn : n < ch) :
    (W * ch - 1 - n) / ch + 1 = W := by
  obtain ⟨V, rfl⟩ : ∃ V, W = V + 1 := ⟨W - 1, by omega⟩
  have e : (V + 1) * ch - 1 - n = (ch - 1 - n) + ch * V := by
    have : (V + 1) * ch = ch * V + ch := by ring
    omega
  rw [e, Nat.add_mul_div_left _ _ (by omega : 0 < ch), Nat.div_eq_of_lt (by omega)]
  omega

theorem slices_fold {α : Type} (X : Externals α) (I : af.array α) (W H ch : Nat) (t : af_dtype)
    (hW : 0 < W) (hI : I.dim = ⟨W * ch, H, 1, 1⟩) (n : Nat) (hn : n ≤ ch) :
    (List.range n).foldlM (fun (s : af.array α) c =>
        (I.rows c (W * ch - 1) ch).bind (fun chn => s.assignSlice X c chn))
        (⟨⟨W, H, ch, 1⟩, t, fun _ _ _ _ => X.zero⟩ : af.array α) =
      .ok ⟨⟨W, H, ch, 1⟩, t, fun i j k _ =>
        if k < n then castTo X I.type t (I.get (k + ch * i) j 0 0) else X.zero⟩ := by
  induction n with
  | zero =>
    simp only [List.range_zero, List.foldlM_nil, Nat.not_lt_zero, if_false]
    rfl
  | succ n ih =>
    have hn' : n < ch := by omega
    have hchpos : 0 < ch := by omega
    have hle : ch ≤ W * ch := Nat.le_mul_of_pos_left ch hW
    rw [List.range_succ, List.foldlM_append, ih (by omega)]
    have hrows : I.rows n (W * ch - 1) ch =
        .ok ⟨⟨W, H, 1, 1⟩, I.type, fun i j k l => I.get (n + ch * i) j k l⟩ := by
      unfold af.array.rows
      rw [if_pos ⟨by omega, by rw [hI]; simp only; omega, hchpos⟩]
      simp only [hI, seq_count W ch n hW hn']
    simp only [List.foldlM_cons, List.foldlM_nil, hrows]
    show (Except.bind _ _ >>= pure) = _
    simp only [Except.bind, af.array.assignSlice, hn', true_and, if_true, bind_pure]
    congr 1
    congr 1
    funext i j k _
    by_cases hk : k = n
    · subst hk
      simp
    · by_cases hlt : k < n
      · simp [hk, hlt, Nat.lt_succ_of_lt hlt]
      · have : ¬ k < n + 1 := by omega
        simp [hk, hlt, this]

theorem except_bind_ok {ε β γ : Type} (a : β) (f : β → Except ε γ) :
    (Except.ok a : Except ε β).bind f = f a := rfl

theorem Convert_closed {α : Type} (X : Externals α) (m : Mat) (tr : Bool) (W H ch : Nat)
    (hrows : m.rows = H) (hcols : m.cols = W) (hch : m.channels = ch)
    (hstep : m.step = W * ch) (hW : 0 < W) (hH : 0 < H) :
    Convert X m tr = .ok
      (if tr then
        af.transpose ⟨⟨W, H, ch, 1⟩, GetAfDtypeFromCVType m.depth, fun i j k _ =>
          if k < ch then castTo X .u8 (GetAfDtypeFromCVType m.depth)
            ((m.data.map X.ofByte).getD (k + ch * i + W * ch * j) X.indet) else X.zero⟩
      else
        ⟨⟨W, H, ch, 1⟩, GetAfDtypeFromCVType m.depth, fun i j k _ =>
          if k < ch then castTo X .u8 (GetAfDtypeFromCVType m.depth)
            ((m.data.map X.ofByte).getD (k + ch * i + W * ch * j) X.indet) else X.zero⟩) := by
  have hchpos : 0 < ch := by rw [← hch]; unfold Mat.channels; omega
  have hstep0 : 0 < W * ch := Nat.mul_pos hW hchpos
  have hne : (⟨W, H, ch, 1⟩ : af.dim4).elements ≠ 0 := by
    have : W * H * ch ≠ 0 := by positivity
    simpa [af.dim4.elements] using this
  rw [Convert_eq, hrows, hcols, hch, hstep, ofHost_ok X _ _ hstep0 hH, constant_ok X _ _ hne]
  simp only [except_bind_ok]
  rw [slices_fold X _ W H ch _ hW rfl ch (le_refl _)]
  simp only [except_bind_ok, Nat.mul_zero, Nat.add_zero, Nat.mul_one]

theorem Convert_planarOf {α : Type} (X : Externals α) (m : Mat) (tr : Bool)
    (hstep : m.step = m.cols * m.channels) (hW : 0 < m.cols) (hH : 0 < m.rows) :
    Convert X m tr = .ok (if tr then af.transpose (planarOf X m) else planarOf X m) :=
  Convert_closed X m tr m.cols m.rows m.channels rfl rfl rfl hstep hW hH

theorem packed8_not_empty (m : Mat) (hm : m.packed8) : m.empty = false := by
  obtain ⟨hr, hc, _, _, _, _, hstep, hlen, _⟩ := hm
  have hch : 0 < m.channels := by unfold Mat.channels; omega
  have hpos : 0 < m.rows * (m.cols * m.channels) := Nat.mul_pos hr (Nat.mul_pos hc hch)
  have hrc : m.rows * m.cols ≠ 0 := Nat.mul_ne_zero (by omega) (by omega)
  have hd : m.data ≠ [] := by
    intro h
    rw [hstep, h] at hlen
    simp at hlen
    omega
  simp [Mat.empty, hd, hrc]

theorem CVMatToArray_packed8 {α : Type} (X : Externals α) (m : Mat) (tr : Bool)
    (hm : m.packed8) :
    CVMatToArray X m tr = .ok (if tr then af.transpose (planarOf X m) else planarOf X m) := by
  unfold CVMatToArray
  rw [packed8_not_empty m hm]
  simp only [Bool.false_eq_true, if_false]
  exact Convert_planarOf X m tr hm.2.2.2.2.2.2.1 hm.2.1 hm.1

theorem planarOf_type_ne_f32 {α : Type} (X : Externals α) (m : Mat) (t : Bool)
    (hd : m.depth = 0 ∨ m.depth = 1) :
    (af.array.empty X).type ≠
      (if t then af.transpose (planarOf X m) else planarOf X m).type := by
  have h : (if t then af.transpose (planarOf X m) else planarOf X m).type =
      GetAfDtypeFromCVType (m.depth : Int) := by
    cases t <;> rfl
  rw [h]
  rcases hd with h0 | h1
  · rw [h0]; show af_dtype.f32 ≠ GetAfDtypeFromCVType ((0 : Nat) : Int); decide
  · rw [h1]; show af_dtype.f32 ≠ GetAfDtypeFromCVType ((1 : Nat) : Int); decide

theorem CVMatToArray_vector_first_join {α : Type} (X : Externals α) (m : Mat)
    (rest : List Mat) (t : Bool) (hm : m.packed8) :
    CVMatToArray_vector X (m :: rest) t = .error (.af_exception .AF_ERR_ARG) := by
  have hj : af.join 2 (af.array.empty X)
      (if t then af.transpose (planarOf X m) else planarOf X m) =
      .error (.af_exception .AF_ERR_ARG) := by
    unfold af.join
    rw [if_pos (Or.inr (planarOf_type_ne_f32 X m t hm.2.2.2.2.2.1))]
  unfold CVMatToArray_vector
  rw [if_neg (by simp), List.foldlM_cons,
    Convert_planarOf X m t hm.2.2.2.2.2.2.1 hm.2.1 hm.1]
  show (af.join 2 (af.array.empty X) _ >>= _) = _
  rw [hj]
  rfl

/-! ### The OpenCV side: acceptance and sizes of `ArrayToCVMat` -/

theorem cvtype_value (t : af_dtype) (c : Nat) (hc : 1 ≤ c ∧ c ≤ 3) :
    GetCVTypeFromAfDtype t c = ((mappedDepth t + 8 * (c - 1) : Nat) : Int) := by
  obtain ⟨h1, h3⟩ := hc
  interval_cases c <;> cases t <;> decide

theorem ArrayToCVMat_fits_aux {α : Type} (X : Externals α) (a : af.array α) (tr : Bool)
    (d0 d1 c : Nat) (hdim : a.dim = ⟨d0, d1, c, 1⟩) (h0 : 0 < d0 ∧ d0 < 2 ^ 31)
    (h1 : 0 < d1 ∧ d1 < 2 ^ 31) (hc : 1 ≤ c ∧ c ≤ 3)
    (hes : elemSize1 (mappedDepth a.type) = af.sizeOfDtype a.type)
    (hbytes : ∀ v, (X.toBytes a.type v).length = af.sizeOfDtype a.type) :
    ∃ m, ArrayToCVMat X a tr = .ok m ∧ m.channels = c ∧
      m.data.length = m.rows * m.cols * m.elemSize := by
  have key : ∀ (b : af.array α) (e0 e1 : Nat), b.dim = ⟨e0, e1, c, 1⟩ → b.type = a.type →
      0 < e0 ∧ e0 < 2 ^ 31 → 0 < e1 ∧ e1 < 2 ^ 31 →
      ∃ m, ArrayToCVMat X b false = .ok m ∧ m.channels = c ∧
        m.data.length = m.rows * m.cols * m.elemSize := by
    intro b e0 e1 hb hbt g0 g1
    obtain ⟨m, hm, hr, hcl, _, hch, hdep, _, hlen, _, _⟩ :=
      ArrayToCVMat_layout_aux X b e0 e1 c hb g0.1 g1.1 g0.2 g1.2 hc
        (fun r q k _ _ _ => by rw [hbt, hes]; exact hbytes _)
    refine ⟨m, hm, hch, ?_⟩
    rw [hlen, Mat.elemSize, hr, hcl, hch, hdep]
  cases tr with
  | false => exact key a d0 d1 hdim rfl h0 h1
  | true =>
    rw [ArrayToCVMat_transpose_flag]
    exact key (af.transpose a) d1 d0 (by simp [af.transpose, hdim]) rfl h1 h0

theorem ArrayToCVMat_outcome_aux {α : Type} (X : Externals α) (a : af.array α) (tr : Bool)
    (h3 : a.dims 3 = 1) (h0 : a.dims 0 < 2 ^ 31) (h1 : a.dims 1 < 2 ^ 31)
    (hes : elemSize1 (mappedDepth a.type) = af.sizeOfDtype a.type)
    (hbytes : ∀ v, (X.toBytes a.type v).length = af.sizeOfDtype a.type) :
    ((∃ e, ArrayToCVMat X a tr = .error e) ↔ (a.isempty = false ∧ a.dims 2 > 3)) ∧
    (¬ (a.isempty = false ∧ a.dims 2 > 3) →
      ∃ m, ArrayToCVMat X a tr = .ok m ∧
        m.data.length = m.rows * m.cols * m.elemSize) := by
  cases he : a.isempty with
  | true =>
    rw [ArrayToCVMat_empty X a tr he]
    exact ⟨⟨fun ⟨e, h⟩ => (by cases h), fun ⟨h, _⟩ => (by cases h)⟩, fun _ => ⟨_, rfl, rfl⟩⟩
  | false =>
    by_cases h2 : a.dims 2 > 3
    · rw [ArrayToCVMat_many_channels X a tr he h2]
      exact ⟨⟨fun _ => ⟨rfl, h2⟩, fun _ => ⟨_, rfl⟩⟩, fun hn => absurd ⟨rfl, h2⟩ hn⟩
    · obtain ⟨⟨d0, d1, d2, d3⟩, t, g⟩ := a
      simp only [af.array.dims, af.dim4.get] at h3 h0 h1 h2
      subst h3
      have hne : d0 * d1 * d2 ≠ 0 := by
        simpa [af.array.isempty, af.array.elements, af.dim4.elements] using he
      have hp0 : 0 < d0 := Nat.pos_of_ne_zero (by rintro rfl; simp at hne)
      have hp1 : 0 < d1 := Nat.pos_of_ne_zero (by rintro rfl; simp at hne)
      have hp2 : 0 < d2 := Nat.pos_of_ne_zero (by rintro rfl; simp at hne)
      obtain ⟨m, hm, _, hfit⟩ := ArrayToCVMat_fits_aux X ⟨⟨d0, d1, d2, 1⟩, t, g⟩ tr d0 d1 d2
        rfl ⟨hp0, h0⟩ ⟨hp1, h1⟩ ⟨hp2, by omega⟩ hes hbytes
      rw [hm]
      refine ⟨⟨fun ⟨e, h⟩ => (by cases h), fun ⟨_, h⟩ => ?_⟩, fun _ => ⟨m, rfl, hfit⟩⟩
      simp only [af.array.dims, af.dim4.get] at h
      omega

theorem dtype_of_mappedDepth (t : af_dtype)
    (ht : t = .u8 ∨ t = .b8 ∨ t = .u16 ∨ t = .s16 ∨ t = .s32 ∨ t = .f32 ∨ t = .f64) :
    GetAfDtypeFromCVType ((mappedDepth t : Nat) : Int) = t := by
  rcases ht with rfl | rfl | rfl | rfl | rfl | rfl | rfl <;> rfl

theorem ArrayToCVMat_layout_typed_aux {α : Type} (X : Externals α) (a : af.array α)
    (d0 d1 c : Nat) (hdim : a.dim = ⟨d0, d1, c, 1⟩) (h0 : 0 < d0 ∧ d0 < 2 ^ 31)
    (h1 : 0 < d1 ∧ d1 < 2 ^ 31) (hc : 1 ≤ c ∧ c ≤ 3)
    (hty : a.type = .u8 ∨ a.type = .b8 ∨ a.type = .u16 ∨ a.type = .s16 ∨ a.type = .s32 ∨
      a.type = .f32 ∨ a.type = .f64)
    (hbytes : ∀ v, (X.toBytes a.type v).length = af.sizeOfDtype a.type) :
    ∃ m, ArrayToCVMat X a false = .ok m ∧ m.rows = d0 ∧ m.cols = d1 ∧ m.channels = c ∧
      (m.type : Int) = GetCVTypeFromAfDtype a.type c ∧
      GetAfDtypeFromCVType (m.depth : Int) = a.type ∧
      m.step = d1 * m.elemSize ∧ m.data.length = d0 * m.step ∧
      ∀ r q k, r < d0 → q < d1 → k < c →
        m.channelBytes r q k = X.toBytes a.type (a.get r q k 0) := by
  have hes : elemSize1 (mappedDepth a.type) = af.sizeOfDtype a.type :=
    elemSize1_mappedDepth a.type (by
      rcases hty with h | h | h | h | h | h | h <;> simp [h])
  obtain ⟨m, hm, hr, hcl, htype, hch, hdep, hstep, hlen, _, hb⟩ :=
    ArrayToCVMat_layout_aux X a d0 d1 c hdim h0.1 h1.1 h0.2 h1.2 hc
      (fun r q k _ _ _ => by rw [hes]; exact hbytes _)
  refine ⟨m, hm, hr, hcl, hch, ?_, ?_, ?_, ?_, hb⟩
  · rw [cvtype_value a.type c hc, htype]
  · rw [hdep]; exact dtype_of_mappedDepth a.type hty
  · rw [hstep, Mat.elemSize, hch, hdep]
  · rw [hlen, hstep, Nat.mul_assoc]

/-! ### The claims on element counts and on the OpenCV side -/

/-- C11, the code at a failing input: the array `batchArray` has extents `(1, 1, 1, 2)`,
one channel and two elements, 7 and 8. `AfArrayToITKImage` accepts it into a scalar
`u8` image, with or without the transpose flag, and returns an image of size `(1, 1)`
whose pixel container holds 7 only: one component is stored for two source elements. -/
theorem C11_batch_elements_are_dropped :
    batchArray.elements = 2 ∧ batchArray.dims 2 = (imageTypeU8 1).Components ∧
    batchArray.host = [7, 8] ∧
    (∀ tr : Bool, ∃ img,
      AfArrayToITKImage intExternals (imageTypeU8 1) batchArray tr = .ok img ∧
      img.size = [1, 1] ∧ img.buffer = [7] ∧
      img.size.prod * (imageTypeU8 1).Components ≠ batchArray.elements) := by
  refine ⟨rfl, rfl, rfl, fun tr => ?_⟩
  cases tr <;> exact ⟨_, rfl, rfl, rfl, by decide⟩

/-- C12, the code at a failing input: `mat16` is a non-empty `CV_16UC1` matrix with one
row and one column whose row step is `1 * 1 * 2` bytes. `CVMatToArray` returns no array
for it: with either flag the call ends in the `af::exception` of the slice assignment,
because the data are loaded as `step` one-byte values per row. -/
theorem C12_wider_depth_is_rejected :
    mat16.empty = false ∧ mat16.depth = 2 ∧ mat16.channels = 1 ∧
    mat16.step = mat16.cols * mat16.channels * elemSize1 mat16.depth ∧
    mat16.data.length = mat16.rows * mat16.step ∧
    CVMatToArray intExternals mat16 false = .error (.af_exception .AF_ERR_SIZE) ∧
    CVMatToArray intExternals mat16 true = .error (.af_exception .AF_ERR_SIZE) :=
  ⟨rfl, rfl, rfl, rfl, rfl, rfl, rfl⟩

/-- C13, counterexample: `tallArray` is a non-empty `u8` array with extents
`(2 ^ 31, 1, 1, 1)`, one channel, element type among the mapped ones. `ArrayToCVMat`
returns no matrix for it: the extent `2 ^ 31` is handed to the matrix constructor as
the `int` value `- 2 ^ 31`, as the row count without the flag and as the column count
with it, and the constructor refuses it. -/
theorem C13_counterexample_tall_array :
    tallArray.dim = ⟨2147483648, 1, 1, 1⟩ ∧ tallArray.type = .u8 ∧
    tallArray.isempty = false ∧
    Int.bmod (tallArray.dims 0) (2 ^ 32) = -2147483648 ∧
    ArrayToCVMat intExternals tallArray false = .error (.cv_exception "negative size") ∧
    ArrayToCVMat intExternals tallArray true = .error (.cv_exception "negative size") :=
  ⟨rfl, rfl, rfl, by decide, rfl, rfl⟩

/-- C13 (amended): for every array `a` with extents `(d0, d1, c, 1)`, `1 ≤ d0 < 2 ^ 31`,
`1 ≤ d1 < 2 ^ 31`, `1 ≤ c ≤ 3`, whose element type is one of the seven mapped types
(each value of that type being held by as many bytes as the type has),
`ArrayToCVMat a false` returns a matrix without padding with `d0` rows, `d1` columns,
`c` channels and the type code mapped from the element type of `a`, in which the bytes
of channel `k` at row `r`, column `q` are those of `a(r, q, k)`; `ArrayToCVMat a true`
returns the matrix with `d1` rows and `d0` columns in which the bytes of channel `k`
at row `r`, column `q` are those of `a(q, r, k)`. -/
theorem C13_layout_of_ArrayToCVMat {α : Type} (X : Externals α) (a : af.array α)
    (d0 d1 c : Nat) (hdim : a.dim = ⟨d0, d1, c, 1⟩) (h0 : 0 < d0 ∧ d0 < 2 ^ 31)
    (h1 : 0 < d1 ∧ d1 < 2 ^ 31) (hc : 1 ≤ c ∧ c ≤ 3)
    (hty : a.type = .u8 ∨ a.type = .b8 ∨ a.type = .u16 ∨ a.type = .s16 ∨ a.type = .s32 ∨
      a.type = .f32 ∨ a.type = .f64)
    (hbytes : ∀ v, (X.toBytes a.type v).length = af.sizeOfDtype a.type) :
    (∃ m, ArrayToCVMat X a false = .ok m ∧ m.rows = d0 ∧ m.cols = d1 ∧ m.channels = c ∧
      (m.type : Int) = GetCVTypeFromAfDtype a.type c ∧
      GetAfDtypeFromCVType (m.depth : Int) = a.type ∧
      m.step = d1 * m.elemSize ∧ m.data.length = d0 * m.step ∧
      ∀ r q k, r < d0 → q < d1 → k < c →
        m.channelBytes r q k = X.toBytes a.type (a.get r q k 0)) ∧
    (∃ m, ArrayToCVMat X a true = .ok m ∧ m.rows = d1 ∧ m.cols = d0 ∧ m.channels = c ∧
      (m.type : Int) = GetCVTypeFromAfDtype a.type c ∧
      GetAfDtypeFromCVType (m.depth : Int) = a.type ∧
      m.step = d0 * m.elemSize ∧ m.data.length = d1 * m.step ∧
      ∀ r q k, r < d1 → q < d0 → k < c →
        m.channelBytes r q k = X.toBytes a.type (a.get q r k 0)) := by
  refine ⟨ArrayToCVMat_layout_typed_aux X a d0 d1 c hdim h0 h1 hc hty hbytes, ?_⟩
  rw [ArrayToCVMat_transpose_flag]
  exact ArrayToCVMat_layout_typed_aux X (af.transpose a) d1 d0 c
    (by simp [af.transpose, hdim]) h1 h0 hc hty hbytes

/-- C13, witness: the 2 by 3 `u8` array with 3 channels whose element at `(i, j, k)` is
`100 * k + 10 * j + i`; the matrix has 2 rows and 3 columns, and channel 1 at row 1,
column 2 is the byte 121. -/
theorem C13_layout_of_ArrayToCVMat_witness :
    sampleRGB.dim = ⟨2, 3, 3, 1⟩ ∧ sampleRGB.type = .u8 ∧
    ∃ m, ArrayToCVMat intExternals sampleRGB false = .ok m ∧ m.rows = 2 ∧ m.cols = 3 ∧
      m.channels = 3 ∧ m.channelBytes 1 2 1 = [121] := by
  obtain ⟨⟨m, hm, hr, hcl, hch, _, _, _, _, hb⟩, _⟩ :=
    C13_layout_of_ArrayToCVMat intExternals sampleRGB 2 3 3 rfl (by decide) (by decide)
      (by decide) (Or.inl rfl) (fun _ => rfl)
  exact ⟨rfl, rfl, m, hm, hr, hcl, hch, by
    rw [hb 1 2 1 (by decide) (by decide) (by decide)]; rfl⟩

/-- C14: for every channel count `n` from 1 to 4 and every depth `d` among `CV_8U`,
`CV_8S`, `CV_16U`, `CV_16S`, `CV_32S`, `CV_32F`, `CV_64F`,
`GetCVTypeFromAfDtype (GetAfDtypeFromCVType d) n` is `CV_MAKETYPE d n`, the type code
with depth `d` and `n` channels; and for every element type `t` among `u8`, `b8`,
`u16`, `s16`, `s32`, `f32`, `f64`, `GetAfDtypeFromCVType` of the depth of
`GetCVTypeFromAfDtype t n` is `t`. -/
theorem C14_type_mappings_are_inverse (n : Nat) (hn : 1 ≤ n ∧ n ≤ 4) :
    (∀ d : Int, d ∈ [CV_8U, CV_8S, CV_16U, CV_16S, CV_32S, CV_32F, CV_64F] →
      GetCVTypeFromAfDtype (GetAfDtypeFromCVType d) n = CV_MAKETYPE d n ∧
      GetCVTypeFromAfDtype (GetAfDtypeFromCVType d) n = d + 8 * ((n : Int) - 1) ∧
      GetCVTypeFromAfDtype (GetAfDtypeFromCVType d) n % 8 = d ∧
      GetCVTypeFromAfDtype (GetAfDtypeFromCVType d) n / 8 % 512 + 1 = n) ∧
    (∀ t : af_dtype, t ∈ [af_dtype.u8, .b8, .u16, .s16, .s32, .f32, .f64] →
      GetAfDtypeFromCVType (GetCVTypeFromAfDtype t n % 8) = t) := by
  obtain ⟨h1, h4⟩ := hn
  interval_cases n <;> refine ⟨?_, ?_⟩ <;> intro x hx <;>
    simp only [List.mem_cons, List.mem_singleton, List.not_mem_nil, or_false] at hx <;>
    rcases hx with rfl | rfl | rfl | rfl | rfl | rfl | rfl <;> decide

/-- C14, witness: three channels; `CV_16S` goes to `s16` and back to the code 19 of
`CV_16SC3`, and `b8` goes to a type code of depth `CV_8S` and back to `b8`. -/
theorem C14_type_mappings_are_inverse_witness :
    GetCVTypeFromAfDtype (GetAfDtypeFromCVType CV_16S) 3 = 19 ∧
    GetAfDtypeFromCVType (GetCVTypeFromAfDtype .b8 3 % 8) = .b8 :=
  ⟨((C14_type_mappings_are_inverse 3 (by decide)).1 CV_16S (by decide)).2.1,
   (C14_type_mappings_are_inverse 3 (by decide)).2 .b8 (by decide)⟩

/-- C15, the code at a failing input: `sampleImage3D` is a 3-D scalar `u8` image of size
`(2, 1, 1)`. `ITKImageToAfArray` accepts it, and `AfArrayToITKImage` into the same 3-D
image type returns an image with start index `(0, 0, 0)` whose first two extents are
`(2, 1)` and whose third extent is whatever the never-written third entry of the local
size holds; with the interpretation `intExternals` the size differs from that of the
source image. -/
theorem C15_third_extent_is_not_set :
    sampleImage3D.size = [2, 1, 1] ∧
    ∃ arr, ITKImageToAfArray intExternals imageType3D (some sampleImage3D) = .ok arr ∧
      (∀ (X : Externals Int) (tr : Bool), ∃ out,
        AfArrayToITKImage X imageType3D arr tr = .ok out ∧
        out.index = [0, 0, 0] ∧
        out.size = (if tr then [1, 2, X.indetExtent 2] else [2, 1, X.indetExtent 2])) ∧
      ∃ out, AfArrayToITKImage intExternals imageType3D arr false = .ok out ∧
        out.size = [2, 1, 0] ∧ out.size ≠ sampleImage3D.size := by
  refine ⟨rfl, _, rfl, fun X tr => ?_, _, rfl, rfl, by decide⟩
  cases tr <;> exact ⟨_, rfl, rfl, rfl⟩

/-- C16, the code at a failing input: every depth code outside the seven listed ones is
mapped to `f32` by `GetAfDtypeFromCVType`, every element type outside `u8`, `b8`, `u16`,
`s16`, `s32`, `f32`, `f64` is mapped by `GetCVTypeFromAfDtype` to the `CV_32F` type code
with the requested channel count, and `AfArrayToITKImage` reports "Unsupported type for
pixel component" for every non-empty array whose element type is none of `f64`, `f32`,
`s16`, `u16`, `u8`. For the non-empty 1 by 1 arrays of type `u64` and `c64`, however,
`ArrayToCVMat` allocates the 4 bytes of one `CV_32FC1` element and `host` writes the 8,
respectively 16, bytes of the array's element to the data pointer. -/
theorem C16_unrecognised_types_and_the_copy :
    (∀ d : Int, d ∉ [CV_8U, CV_8S, CV_16U, CV_16S, CV_32S, CV_32F, CV_64F] →
      GetAfDtypeFromCVType d = .f32) ∧
    (∀ (t : af_dtype) (n : Nat), t ∉ [af_dtype.u8, .b8, .u16, .s16, .s32, .f32, .f64] →
      GetCVTypeFromAfDtype t n = CV_MAKETYPE CV_32F n) ∧
    (∀ (α : Type) (X : Externals α) (T : ImageType) (a : af.array α) (tr : Bool),
      a.isempty = false → a.type ∉ [af_dtype.f64, .f32, .s16, .u16, .u8] →
      AfArrayToITKImage X T a tr =
        .error (.itkGeneric "Unsupported type for pixel component")) ∧
    (unitArray .u64).isempty = false ∧ (unitArray .c64).isempty = false ∧
    GetCVTypeFromAfDtype .u64 1 = CV_MAKETYPE CV_32F 1 ∧
    GetCVTypeFromAfDtype .c64 1 = CV_MAKETYPE CV_32F 1 ∧
    (∃ m, ArrayToCVMat intExternals (unitArray .u64) false = .ok m ∧
      (m.type : Int) = CV_MAKETYPE CV_32F 1 ∧ m.rows * m.cols * m.elemSize = 4 ∧
      (unitArray .u64).elements * af.sizeOfDtype (unitArray .u64).type = 8 ∧
      m.data.length = 8) ∧
    (∃ m, ArrayToCVMat intExternals (unitArray .c64) true = .ok m ∧
      (m.type : Int) = CV_MAKETYPE CV_32F 1 ∧ m.rows * m.cols * m.elemSize = 4 ∧
      (unitArray .c64).elements * af.sizeOfDtype (unitArray .c64).type = 16 ∧
      m.data.length = 16) := by
  refine ⟨?_, ?_, ?_, rfl, rfl, rfl, rfl, ⟨_, rfl, rfl, rfl, rfl, rfl⟩,
    ⟨_, rfl, rfl, rfl, rfl, rfl⟩⟩
  · intro d hd
    simp only [List.mem_cons, List.mem_singleton, List.not_mem_nil, or_false, not_or] at hd
    obtain ⟨h0, h1, h2, h3, h4, h5, h6⟩ := hd
    unfold GetAfDtypeFromCVType
    rw [if_neg h0, if_neg h1, if_neg h2, if_neg h3, if_neg h4, if_neg h5, if_neg h6]
  · intro t n ht
    cases t <;> first | rfl | (exact absurd (by decide) ht)
  · intro α X T a tr he ht
    simp only [List.mem_cons, List.mem_singleton, List.not_mem_nil, or_false] at ht
    unfold AfArrayToITKImage
    simp only [he, Bool.false_eq_true, if_false]
    rw [if_neg ht]

/-- C17, counterexample: `tallArray` is non-empty with extents `(2 ^ 31, 1, 1, 1)`, so its
channel extent is 1 and its batch extent is 1, and yet `ArrayToCVMat` raises an error
for it: the first extent becomes a negative `int` and the matrix constructor refuses
it. -/
theorem C17_counterexample_tall_array :
    tallArray.isempty = false ∧ tallArray.dims 2 = 1 ∧ tallArray.dims 3 = 1 ∧
    ArrayToCVMat intExternals tallArray false = .error (.cv_exception "negative size") ∧
    ¬ (tallArray.isempty = false ∧ tallArray.dims 2 > 3) :=
  ⟨rfl, rfl, rfl, rfl, by decide⟩

/-- C17 (amended): let an array have batch extent 1, first two extents below `2 ^ 31`
and an element type whose size is that of the matrix element type chosen for it (`u8`,
`b8`, `u16`, `s16`, `s32`, `f32`, `f64`, `u32`; each value held by as many bytes as
the type has). For either value of the transpose flag, `ArrayToCVMat` raises an error
if and only if the array is non-empty and its channel extent is greater than 3, the
error then being "OpenCV Images doesn't support more than 3 channels"; in every other
case it returns a matrix whose data are exactly the `rows * cols * elemSize` bytes
allocated for it. -/
theorem C17_ArrayToCVMat_error_conditions {α : Type} (X : Externals α) (a : af.array α)
    (tr : Bool) (h3 : a.dims 3 = 1) (h0 : a.dims 0 < 2 ^ 31) (h1 : a.dims 1 < 2 ^ 31)
    (hty : a.type = .u8 ∨ a.type = .b8 ∨ a.type = .u16 ∨ a.type = .s16 ∨ a.type = .s32 ∨
      a.type = .f32 ∨ a.type = .f64 ∨ a.type = .u32)
    (hbytes : ∀ v, (X.toBytes a.type v).length = af.sizeOfDtype a.type) :
    ((∃ e, ArrayToCVMat X a tr = .error e) ↔ (a.isempty = false ∧ a.dims 2 > 3)) ∧
    (a.isempty = false ∧ a.dims 2 > 3 →
      ArrayToCVMat X a tr =
        .error (.runtime_error "OpenCV Images doesn't support more than 3 channels")) ∧
    (¬ (a.isempty = false ∧ a.dims 2 > 3) →
      ∃ m, ArrayToCVMat X a tr = .ok m ∧
        m.data.length = m.rows * m.cols * m.elemSize) := by
  obtain ⟨hiff, hok⟩ := ArrayToCVMat_outcome_aux X a tr h3 h0 h1
    (elemSize1_mappedDepth a.type hty) hbytes
  exact ⟨hiff, fun h => ArrayToCVMat_many_channels X a tr h.1 h.2, hok⟩

/-- C17, witness: a 1 by 1 `u8` array with 4 channels is rejected, with the flag set, and
the 2 by 3 `u8` array with 3 channels is converted. -/
theorem C17_ArrayToCVMat_error_conditions_witness :
    (∃ e, ArrayToCVMat intExternals ⟨⟨1, 1, 4, 1⟩, .u8, fun _ _ _ _ => 0⟩ true = .error e) ∧
    ∃ m, ArrayToCVMat intExternals sampleRGB false = .ok m ∧
      m.data.length = m.rows * m.cols * m.elemSize :=
  ⟨(C17_ArrayToCVMat_error_conditions intExternals ⟨⟨1, 1, 4, 1⟩, .u8, fun _ _ _ _ => 0⟩ true
      rfl (by decide) (by decide) (Or.inl rfl) (fun _ => rfl)).1.2 ⟨rfl, by decide⟩,
   (C17_ArrayToCVMat_error_conditions intExternals sampleRGB false
      rfl (by decide) (by decide) (Or.inl rfl) (fun _ => rfl)).2.2 (by decide)⟩

/-- C19, the code at a failing input: `unitMat8U` is a non-empty `CV_8UC1` matrix without
padding, and `CVMatToArray` of it is a `u8` array. `CVMatToArray` of the one-element
list holding it ends in the `af::exception` of `af::join`, whose first operand is the
default-constructed array of type `f32`; the same holds for every list that starts
with a non-empty matrix without padding of depth `CV_8U` or `CV_8S`, whatever the
flag. -/
theorem C19_first_join_is_refused :
    unitMat8U.packed8 ∧
    CVMatToArray intExternals unitMat8U false = .ok (planarOf intExternals unitMat8U) ∧
    (planarOf intExternals unitMat8U).type = .u8 ∧
    (af.array.empty intExternals).type = .f32 ∧
    (af.array.empty intExternals).isempty = true ∧
    CVMatToArray_vector intExternals [unitMat8U] false =
      .error (.af_exception .AF_ERR_ARG) ∧
    (∀ (α : Type) (X : Externals α) (m : Mat) (rest : List Mat) (t : Bool), m.packed8 →
      CVMatToArray_vector X (m :: rest) t = .error (.af_exception .AF_ERR_ARG)) :=
  ⟨by decide, CVMatToArray_packed8 intExternals unitMat8U false (by decide), rfl, rfl, rfl,
   rfl, fun _ X m rest t hm => CVMatToArray_vector_first_join X m rest t hm⟩

/-- C20, the code at a failing input: the 1 by 1 single-channel array of type `s64` is
non-empty; `ArrayToCVMat` allocates a `CV_32FC1` matrix of 1 row and 1 column, 4 bytes,
and `host` writes the 8 bytes of the array's element to its data pointer. -/
theorem C20_copy_exceeds_allocation :
    (unitArray .s64).isempty = false ∧ (unitArray .s64).dims 2 = 1 ∧
    (unitArray .s64).dims 3 = 1 ∧
    ∃ m, ArrayToCVMat intExternals (unitArray .s64) false = .ok m ∧
      m.rows = 1 ∧ m.cols = 1 ∧ (m.type : Int) = CV_MAKETYPE CV_32F 1 ∧
      m.rows * m.cols * m.elemSize = 4 ∧
      (unitArray .s64).elements * af.sizeOfDtype (unitArray .s64).type = 8 ∧
      m.data.length = 8 := by
  refine ⟨rfl, rfl, rfl, _, rfl, rfl, rfl, rfl, rfl, rfl, rfl⟩

/-! ### The extents read by `ITKImageToAfArray` -/

theorem loopAccesses_subset {α : Type} (X : Externals α) (img : Image α) (l : List Nat) :
    ∀ i ∈ loopAccesses X img l, i ∈ l := by
  induction l with
  | nil => intro i hi; cases hi
  | cons dim rest ih =>
    intro i hi
    unfold loopAccesses at hi
    split_ifs at hi with h
    · rw [List.mem_singleton] at hi
      rw [hi]; exact List.mem_cons_self _ _
    · rcases List.mem_cons.1 hi with rfl | h'
      · exact List.mem_cons_self _ _
      · exact List.mem_cons_of_mem _ (ih i h')

theorem loopAccesses_any {α : Type} (X : Externals α) (img : Image α) (l : List Nat) :
    (loopAccesses X img l).any (fun dim => decide (img.sizeAt X dim ≠ 1)) =
      l.any (fun dim => decide (img.sizeAt X dim ≠ 1)) := by
  induction l with
  | nil => rfl
  | cons dim rest ih =>
    unfold loopAccesses
    split_ifs with h
    · simp [h]
    · simp only [List.any_cons, ih]

theorem sizeAccesses_in_bounds {α : Type} (X : Externals α) (T : ImageType) (img : Image α)
    (hD : 2 ≤ T.ImageDimension) : ∀ i ∈ sizeAccesses X T img, i < T.ImageDimension := by
  intro i hi
  unfold sizeAccesses at hi
  rcases List.mem_append.1 hi with h | h
  · split_ifs at h with h2
    · have := loopAccesses_subset X img _ i h
      rw [List.mem_range'_1] at this
      omega
    · cases h
  · split_ifs at h
    · cases h
    · cases h
    · simp only [List.mem_cons, List.mem_singleton, List.not_mem_nil, or_false] at h
      omega

theorem sizeAccesses_one_axis {α : Type} (X : Externals α) (T : ImageType) (img : Image α)
    (hD : T.ImageDimension = 1)
    (hc : T.Components = 1 ∨ T.Components = 3 ∨ T.Components = 4) :
    sizeAccesses X T img = [0, 1] := by
  have h2 : ¬ T.ImageDimension > 2 := by omega
  have hA : IsA2DImage X T img = false := by
    simp [IsA2DImage, hD]
  have hC : ¬ (T.Components ≠ 1 ∧ T.Components ≠ 3 ∧ T.Components ≠ 4) := by omega
  unfold sizeAccesses
  rw [if_neg h2, hA, if_neg hC]
  rfl

/-! ### The writes of the de-interleaving helper -/

theorem helper_index_norm (c w h i j k : Nat) (hb : w * h * c < 2 ^ 32)
    (hi : i < w) (hj : j < h) (hk : k < c) :
    k * w * h % 2 ^ 32 + (i + w * j) % 2 ^ 32 = k * (w * h) + (i + w * j) ∧
      (i + w * j) % 2 ^ 32 = i + w * j ∧ i + w * j < w * h ∧
      k * (w * h) + (i + w * j) < w * h * c := by
  have h1 : i + w * j < w * h := lt_mul_of_digits w h i j hi hj
  have h2 : k * (w * h) + w * h ≤ w * h * c := by
    calc k * (w * h) + w * h = (w * h) * (k + 1) := by ring
      _ ≤ w * h * c := Nat.mul_le_mul_left _ hk
  have e : k * w * h = k * (w * h) := by ring
  rw [e, Nat.mod_eq_of_lt (by omega), Nat.mod_eq_of_lt (by omega)]
  exact ⟨rfl, rfl, h1, by omega⟩

theorem helper_index_inj (c w h i j k i' j' k' : Nat) (hb : w * h * c < 2 ^ 32)
    (hi : i < w) (hj : j < h) (hk : k < c) (hi' : i' < w) (hj' : j' < h) (hk' : k' < c)
    (he : k * w * h % 2 ^ 32 + (i + w * j) % 2 ^ 32 =
      k' * w * h % 2 ^ 32 + (i' + w * j') % 2 ^ 32) :
    k = k' ∧ i = i' ∧ j = j' := by
  obtain ⟨e1, _, h1, _⟩ := helper_index_norm c w h i j k hb hi hj hk
  obtain ⟨e1', _, h1', _⟩ := helper_index_norm c w h i' j' k' hb hi' hj' hk'
  rw [e1, e1'] at he
  have hEq : (i + w * j) + (w * h) * k = (i' + w * j') + (w * h) * k' := by linarith
  have hs : i + w * j = i' + w * j' := by
    have := congrArg (· % (w * h)) hEq
    simpa [decode0 (w * h) _ _ h1, decode0 (w * h) _ _ h1'] using this
  have hk_eq : k = k' := by
    have := congrArg (· / (w * h)) hEq
    simpa [decode1 (w * h) _ _ h1, decode1 (w * h) _ _ h1'] using this
  have hi_eq : i = i' := by
    have := congrArg (· % w) hs
    simpa [decode0 w _ _ hi, decode0 w _ _ hi'] using this
  have hj_eq : j = j' := by
    have := congrArg (· / w) hs
    simpa [decode1 w _ _ hi, decode1 w _ _ hi'] using this
  exact ⟨hk_eq, hi_eq, hj_eq⟩

theorem nodup_flatMap_range {β : Type} (n : Nat) (f : Nat → List β)
    (h1 : ∀ a, a < n → (f a).Nodup)
    (h2 : ∀ a b, a < n → b < n → a ≠ b → ∀ x, x ∈ f a → x ∈ f b → False) :
    ((List.range n).flatMap f).Nodup := by
  rw [List.nodup_flatMap]
  refine ⟨fun a ha => h1 a (List.mem_range.1 ha), ?_⟩
  refine List.Pairwise.imp_of_mem ?_ (List.nodup_range n)
  intro a b ha hb hne x hxa hxb
  exact h2 a b (List.mem_range.1 ha) (List.mem_range.1 hb) hne x hxa hxb

theorem helperWrites_indices {α : Type} (X : Externals α) (c : Nat) (inPtr : List α)
    (w h : Nat) :
    (helperWrites X c inPtr w h).map Prod.fst =
      (List.range h).flatMap (fun j => (List.range w).flatMap (fun i =>
        (List.range c).map (fun k =>
          ((List.range c).map (fun c => c * w * h % 2 ^ 32)).getD k 0 +
            (i + w * j) % 2 ^ 32))) := by
  simp only [helperWrites, List.map_flatMap, List.map_map]
  rfl

theorem helperWrites_nodup {α : Type} (X : Externals α) (c : Nat) (inPtr : List α)
    (w h : Nat) (hb : w * h * c < 2 ^ 32) :
    ((helperWrites X c inPtr w h).map Prod.fst).Nodup := by
  rw [helperWrites_indices]
  have hmemk : ∀ i j x, x ∈ (List.range c).map (fun k =>
      ((List.range c).map (fun c => c * w * h % 2 ^ 32)).getD k 0 + (i + w * j) % 2 ^ 32) →
      ∃ k, k < c ∧ x = k * w * h % 2 ^ 32 + (i + w * j) % 2 ^ 32 := by
    intro i j x hx
    obtain ⟨k, hk, rfl⟩ := List.mem_map.1 hx
    rw [List.mem_range] at hk
    exact ⟨k, hk, by rw [sliceOffsets_getD c w h k hk]⟩
  have hmemi : ∀ j x, x ∈ (List.range w).flatMap (fun i => (List.range c).map (fun k =>
      ((List.range c).map (fun c => c * w * h % 2 ^ 32)).getD k 0 + (i + w * j) % 2 ^ 32)) →
      ∃ i, i < w ∧ ∃ k, k < c ∧ x = k * w * h % 2 ^ 32 + (i + w * j) % 2 ^ 32 := by
    intro j x hx
    obtain ⟨i, hi, hx'⟩ := List.mem_flatMap.1 hx
    exact ⟨i, List.mem_range.1 hi, hmemk i j x hx'⟩
  apply nodup_flatMap_range
  · intro j hj
    apply nodup_flatMap_range
    · intro i hi
      refine List.Nodup.map_on ?_ (List.nodup_range c)
      intro k hk k' hk' he
      rw [List.mem_range] at hk hk'
      rw [sliceOffsets_getD c w h k hk, sliceOffsets_getD c w h k' hk'] at he
      exact (helper_index_inj c w h i j k i j k' hb hi hj hk hi hj hk' he).1
    · intro i i' hi hi' hne x hx hx'
      obtain ⟨k, hk, e⟩ := hmemk i j x hx
      obtain ⟨k', hk', e'⟩ := hmemk i' j x hx'
      exact hne (helper_index_inj c w h i j k i' j k' hb hi hj hk hi' hj hk'
        (e.symm.trans e')).2.1
  · intro j j' hj hj' hne x hx hx'
    obtain ⟨i, hi, k, hk, e⟩ := hmemi j x hx
    obtain ⟨i', hi', k', hk', e'⟩ := hmemi j' x hx'
    exact hne (helper_index_inj c w h i j k i' j' k' hb hi hj hk hi' hj' hk'
      (e.symm.trans e')).2.2

theorem helperWrites_index_lt {α : Type} (X : Externals α) (c : Nat) (inPtr : List α)
    (w h : Nat) (hb : w * h * c < 2 ^ 32) :
    ∀ wr ∈ helperWrites X c inPtr w h, wr.1 < w * h * c := by
  rintro ⟨q, v⟩ hmem
  rw [mem_helperWrites] at hmem
  obtain ⟨j, hj, i, hi, k, hk, hq, _⟩ := hmem
  obtain ⟨e1, _, _, hlt⟩ := helper_index_norm c w h i j k hb hi hj hk
  show q < w * h * c
  rw [hq, e1]
  exact hlt

theorem helperWrites_covers {α : Type} (X : Externals α) (c : Nat) (inPtr : List α)
    (w h : Nat) (hb : w * h * c < 2 ^ 32) (q : Nat) (hq : q < w * h * c) :
    q ∈ (helperWrites X c inPtr w h).map Prod.fst := by
  have hwh : 0 < w * h := by
    rcases Nat.eq_zero_or_pos (w * h) with h0 | h0
    · rw [h0, Nat.zero_mul] at hq; cases hq
    · exact h0
  have hw : 0 < w := Nat.pos_of_ne_zero (by rintro rfl; simp at hwh)
  have hk : q / (w * h) < c := (Nat.div_lt_iff_lt_mul hwh).2 (by rw [Nat.mul_comm]; exact hq)
  have hs : q % (w * h) < w * h := Nat.mod_lt _ hwh
  have hi : q % (w * h) % w < w := Nat.mod_lt _ hw
  have hj : q % (w * h) / w < h :=
    (Nat.div_lt_iff_lt_mul hw).2 (by rw [Nat.mul_comm h w]; exact hs)
  have es : q % (w * h) % w + w * (q % (w * h) / w) = q % (w * h) := Nat.mod_add_div _ _
  have eq : q / (w * h) * (w * h) + q % (w * h) = q := Nat.div_add_mod' _ _
  obtain ⟨e1, e2, _, _⟩ := helper_index_norm c w h _ _ _ hb hi hj hk
  rw [List.mem_map]
  refine ⟨(q, inPtr.getD (c * ((q % (w * h) % w + w * (q % (w * h) / w)) % 2 ^ 32) +
    q / (w * h)) X.indet), ?_, rfl⟩
  rw [mem_helperWrites]
  refine ⟨_, hj, _, hi, _, hk, ?_, rfl⟩
  rw [e1, es, eq]

theorem helperWrites_count {α : Type} (X : Externals α) (c : Nat) (inPtr : List α)
    (w h : Nat) (hb : w * h * c < 2 ^ 32) (q : Nat) (hq : q < w * h * c) :
    ((helperWrites X c inPtr w h).map Prod.fst).count q = 1 :=
  List.count_eq_one_of_mem (helperWrites_nodup X c inPtr w h hb)
    (helperWrites_covers X c inPtr w h hb q hq)

theorem helper_plane_aux {α : Type} (X : Externals α) (c : Nat) (inPtr : List α)
    (w h : Nat) (hb : w * h * c < 2 ^ 32) (k p : Nat) (hk : k < c) (hp : p < w * h) :
    (ITKRGBArrayToVectorArrayHelper X c inPtr w h)[k * w * h + p]? =
      some (inPtr.getD (c * p + k) X.indet) := by
  have hw : 0 < w := Nat.pos_of_ne_zero (by rintro rfl; simp at hp)
  have hi : p % w < w := Nat.mod_lt _ hw
  have hj : p / w < h := (Nat.div_lt_iff_lt_mul hw).2 (by rw [Nat.mul_comm]; exact hp)
  have es : p % w + w * (p / w) = p := Nat.mod_add_div _ _
  have := (helper_spec X c inPtr w h hb).2 (p % w) (p / w) k hi hj hk
  rw [es] at this
  rw [Nat.mul_assoc]
  exact this

/-! ### The claims on the extents read and on the de-interleaving helper -/

/-- C21, the code at a failing input: `line1D` is a 1-D scalar `u8` image of length 2.
For every image type with one axis and 1, 3 or 4 components, `ITKImageToAfArray` reads
`size[0]` and `size[1]`, and index 1 is not below the image dimension 1. The outcome for
`line1D` depends on what is found there: with 0 beyond the end of the extents the
creation of the array fails, with 1 there an array with extents `(1, 2, 1, 1)` is
returned. -/
theorem C21_second_extent_is_read :
    imageType1D.ImageDimension = 1 ∧ line1D.size = [2] ∧
    (∀ (α : Type) (X : Externals α) (T : ImageType) (img : Image α),
      T.ImageDimension = 1 → (T.Components = 1 ∨ T.Components = 3 ∨ T.Components = 4) →
      sizeAccesses X T img = [0, 1] ∧
      ∃ i ∈ sizeAccesses X T img, ¬ i < T.ImageDimension) ∧
    (∀ X : Externals Int, sizeAccesses X imageType1D line1D = [0, 1]) ∧
    ITKImageToAfArray intExternals imageType1D (some line1D) =
      .error (.itkGeneric "Creation of af::array from data failed") ∧
    ∃ arr, ITKImageToAfArray intExternalsOne imageType1D (some line1D) = .ok arr ∧
      arr.dim = ⟨1, 2, 1, 1⟩ := by
  refine ⟨rfl, rfl, fun α X T img hD hc => ?_, fun X => rfl, rfl, _, rfl, rfl⟩
  have h := sizeAccesses_one_axis X T img hD hc
  refine ⟨h, 1, ?_, by omega⟩
  rw [h]
  exact List.mem_cons_of_mem _ (List.mem_singleton.2 rfl)

/-- C22: for all `width`, `height` and `channels` with
`width * height * channels < 2 ^ 32`, the vector returned by
`ITKRGBArrayToVectorArrayHelper` has `width * height * channels` entries; for `i < width`,
`j < height`, `c < channels` the loop nest writes at index
`c * width * height + (i + width * j)`, which is below that length, and every write it
makes is below that length; every index below the length is written exactly once; and
the entry at `c * width * height + p` is component `c` of input pixel `p`, that is entry
`channels * p + c` of the pixel container, for every `p < width * height`. -/
theorem C22_helper_is_in_bounds_rearrangement {α : Type} (X : Externals α) (channels : Nat)
    (inPtr : List α) (width height : Nat) (hb : width * height * channels < 2 ^ 32) :
    (ITKRGBArrayToVectorArrayHelper X channels inPtr width height).length =
      width * height * channels ∧
    (∀ i j c, i < width → j < height → c < channels →
      c * width * height + (i + width * j) <
        (ITKRGBArrayToVectorArrayHelper X channels inPtr width height).length ∧
      (c * width * height + (i + width * j),
        inPtr.getD (channels * (i + width * j) + c) X.indet) ∈
          helperWrites X channels inPtr width height) ∧
    (∀ wr ∈ helperWrites X channels inPtr width height,
      wr.1 < (ITKRGBArrayToVectorArrayHelper X channels inPtr width height).length) ∧
    (∀ q, q < width * height * channels →
      ((helperWrites X channels inPtr width height).map Prod.fst).count q = 1) ∧
    (∀ c p, c < channels → p < width * height →
      (ITKRGBArrayToVectorArrayHelper X channels inPtr width height)[c * width * height + p]? =
        some (inPtr.getD (channels * p + c) X.indet)) ∧
    (channels * (width * height) ≤ inPtr.length →
      ∀ c p, c < channels → p < width * height →
        (ITKRGBArrayToVectorArrayHelper X channels inPtr width height)[c * width * height + p]? =
          inPtr[channels * p + c]?) := by
  have hlen := (helper_spec X channels inPtr width height hb).1
  refine ⟨hlen, ?_, ?_, ?_, ?_, ?_⟩
  · intro i j c hi hj hc
    obtain ⟨e1, e2, _, hlt⟩ := helper_index_norm channels width height i j c hb hi hj hc
    have e : c * width * height = c * (width * height) := Nat.mul_assoc _ _ _
    refine ⟨by rw [hlen, e]; exact hlt, ?_⟩
    rw [mem_helperWrites]
    exact ⟨j, hj, i, hi, c, hc, by rw [e1, e], by rw [e2]⟩
  · intro wr hwr
    rw [hlen]
    exact helperWrites_index_lt X channels inPtr width height hb wr hwr
  · exact helperWrites_count X channels inPtr width height hb
  · exact fun c p hc hp => helper_plane_aux X channels inPtr width height hb c p hc hp
  · intro hin c p hc hp
    rw [helper_plane_aux X channels inPtr width height hb c p hc hp]
    have hlt : channels * p + c < inPtr.length := by
      have : channels * p + channels ≤ channels * (width * height) := by
        calc channels * p + channels = channels * (p + 1) := by ring
          _ ≤ channels * (width * height) := Nat.mul_le_mul_left _ hp
      omega
    rw [List.getD_eq_getElem?_getD, List.getElem?_eq_getElem hlt]
    rfl

/-- C22, witness: two RGB pixels `(1, 2, 3)` and `(4, 5, 6)` in one row give the three
planes `1 4`, `2 5`, `3 6`; the six writes go to the indices 0, 2, 4, 1, 3, 5. -/
theorem C22_helper_is_in_bounds_rearrangement_witness :
    2 * 1 * 3 < 2 ^ 32 ∧
    ITKRGBArrayToVectorArrayHelper intExternals 3 [1, 2, 3, 4, 5, 6] 2 1 =
      [1, 4, 2, 5, 3, 6] ∧
    (helperWrites intExternals 3 [1, 2, 3, 4, 5, 6] 2 1).map Prod.fst = [0, 2, 4, 1, 3, 5] ∧
    (ITKRGBArrayToVectorArrayHelper intExternals 3 [1, 2, 3, 4, 5, 6] 2 1).length = 2 * 1 * 3 ∧
    ((helperWrites intExternals 3 [1, 2, 3, 4, 5, 6] 2 1).map Prod.fst).count 4 = 1 :=
  ⟨by decide, by decide, by decide,
   (C22_helper_is_in_bounds_rearrangement intExternals 3 [1, 2, 3, 4, 5, 6] 2 1
     (by decide)).1,
   (C22_helper_is_in_bounds_rearrangement intExternals 3 [1, 2, 3, 4, 5, 6] 2 1
     (by decide)).2.2.2.1 4 (by decide)⟩

end itk
